import Mathlib

set_option maxHeartbeats 1000000

/-!
Shallow embedding of `backends/flint/flint_databasereplicator.cc` from
xapian-core (flint backend changeset applier), together with proofs of the
behavioural properties stated in the accompanying specification.

The embedding models:
 * byte strings as `List Nat` (each element conceptually a byte value);
 * the filesystem as an association list from paths to file contents;
 * the remote connection as the remaining byte stream of the changeset
   payload, with `get_message_chunk` moving bytes into the parse buffer;
 * the archival changeset file ("changes file") as the name of the created
   file together with the trace of bytes consumed from the transport (every
   `write_and_clear_changes` call in the source happens after the changes
   file is created, so the file content is exactly the consumed trace);
 * the fallible external syscalls of the base-file path (`open`, `rename`,
   `unlink`) via an outcome environment `BaseEnv`, so that the NFS
   rename-race heuristic of `process_changeset_chunk_base` can be analysed.
-/

/-- Byte strings: lists of natural numbers, each conceptually `< 256`. -/
abbrev Bytes := List Nat

/-- The bytes of an ASCII string literal. -/
def strBytes (s : String) : Bytes := s.data.map Char.toNat

/-- Render a byte string for error messages (paths, table names). -/
def bytesToString (b : Bytes) : String := String.mk (b.map Char.ofNat)

/-- Association-list filesystem: path ↦ file content. -/
abbrev FS := List (Bytes × Bytes)

def fsGet : FS → Bytes → Option Bytes
  | [], _ => none
  | (q, v) :: t, p => if q = p then some v else fsGet t p

def fsGetD (fs : FS) (p : Bytes) (d : Bytes) : Bytes := (fsGet fs p).getD d

def fsDel (fs : FS) (p : Bytes) : FS := fs.filter (fun e => !(decide (e.1 = p)))

def fsSet (fs : FS) (p : Bytes) (v : Bytes) : FS := (p, v) :: fsDel fs p

/-- POSIX `rename(src, dst)`: the content at `src` becomes the content at
`dst` and `src` disappears; renaming a path onto itself is a no-op. -/
def fsRename (fs : FS) (src dst : Bytes) : FS :=
  if src = dst then fs else fsDel (fsSet fs dst (fsGetD fs src [])) src

/-- Modelled from the spec (§1, §4.1): the external variable-length unsigned
integer codec (`F_pack_uint` / `F_unpack_uint`, declared in `flint_utils.h`,
which is not part of this file) is "treated as an opaque primitive pair".
We model it as a base-128 code: seven value bits per byte, least significant
group first, high bit set on every byte except the last.  The auxiliary
function carries fuel `f ≥ n` so that the recursion is structural (the value
shrinks by a factor of 128 at every step). -/
def packUintAux : Nat → Nat → Bytes
  | 0, n => [n % 128]
  | f + 1, n => if n < 128 then [n] else (n % 128 + 128) :: packUintAux f (n / 128)

/-- Modelled from the spec: encoder half of the opaque integer codec. -/
def F_pack_uint (n : Nat) : Bytes := packUintAux n n

/-- Modelled from the spec: decoder half of the opaque integer codec.
`none` covers both "need more bytes" and "malformed", which the replicator
code turns into terminal errors at every call site in this file. -/
def F_unpack_uint : Bytes → Option (Nat × Bytes)
  | [] => none
  | b :: rest =>
    if b < 128 then some (b, rest)
    else
      match F_unpack_uint rest with
      | none => none
      | some (v, r) => some (b % 128 + 128 * v, r)

/-- Modelled from the spec: the length-prefixed string encoder. -/
def F_pack_string (s : Bytes) : Bytes := F_pack_uint s.length ++ s

/-- Modelled from the spec: the length-prefixed string decoder. -/
def F_unpack_string (l : Bytes) : Option (Bytes × Bytes) :=
  match F_unpack_uint l with
  | none => none
  | some (len, rest) =>
    if rest.length < len then none else some (rest.take len, rest.drop len)

/-- Modelled from the spec: `REASONABLE_CHANGESET_SIZE`, the minimum number
of bytes the driver asks the transport to materialise before each parse step
(`flint_replicate_internal.h`, not part of this file). -/
def REASONABLE_CHANGESET_SIZE : Nat := 1024

/-- Modelled from the spec: the fixed magic marker bytes of a changeset
(`CHANGES_MAGIC_STRING`, not part of this file). -/
def CHANGES_MAGIC_STRING : Bytes := strBytes "FlintChanges"

/-- Modelled from the spec: the single supported changeset format version
(`CHANGES_VERSION`, not part of this file). -/
def CHANGES_VERSION : Nat := 1

/-- The errno value `ENOENT` ("no such file or directory"). -/
def ENOENT : Nat := 2

/-- The errors thrown by the replicator: `NetworkError` (protocol errors),
`DatabaseError` (storage errors, carrying an errno), and the database-lock
failure.  `outOfFuel` is the sentinel of the fuel-indexed loops; it is never
produced when a loop is run with fuel exceeding the total number of buffered
and pending stream bytes, since every loop iteration consumes at least one
byte. -/
inductive Err where
  | network : String → Err
  | database : String → Nat → Err
  | lockError : String → Err
  | outOfFuel : Err
deriving DecidableEq

/-- The state threaded through one `apply_changeset_from_conn` call:
the filesystem, the not-yet-delivered transport bytes (`stream`), the parse
buffer `buf` (the code's `buf` string, always a prefix of the remaining
input), and the trace of bytes consumed so far (`consumed`), which is the
content of the archival changeset file whenever one was created (creation
precedes every `write_and_clear_changes` call in the source). -/
structure ReplState where
  fs : FS
  stream : Bytes
  buf : Bytes
  consumed : Bytes
deriving DecidableEq

/-- Total bytes not yet consumed: parse buffer plus pending stream. -/
def totalLen (st : ReplState) : Nat := st.buf.length + st.stream.length

/-- `RemoteConnection::get_message_chunk(buf, n, end_time)`: move bytes from
the transport into `buf` until it holds at least `n` bytes or the message is
exhausted. -/
def ensureChunk (st : ReplState) (n : Nat) : ReplState :=
  let need := n - st.buf.length
  ⟨st.fs, st.stream.drop need, st.buf ++ st.stream.take need, st.consumed⟩

/-- `write_and_clear_changes(changes_fd, buf, ptr - buf.data())`: append the
consumed prefix of `buf` to the consumed trace (mirrored to the archival
file when one exists) and discard it from `buf`; `cur` is the unconsumed
suffix the parse position points at. -/
def consumeTo (st : ReplState) (cur : Bytes) : ReplState :=
  ⟨st.fs, st.stream, cur, st.consumed ++ st.buf.take (st.buf.length - cur.length)⟩

/-- Outcomes of the fallible external syscalls used by one base-file chunk
application.  `none` means the call succeeds.  `renameDone` says whether, in
the case where `rename` *reports* failure, the rename nevertheless completed
on the server (the NFS race the source's comment describes).  `unlinkErr`
forces an errno for the recovery `unlink` call; when it is `none` the unlink
behaves according to the filesystem (success if the temporary file exists,
`ENOENT` otherwise). -/
structure BaseEnv where
  openErr : Option Nat
  renameErr : Option Nat
  renameDone : Bool
  unlinkErr : Option Nat
deriving DecidableEq

/-- The all-succeeding syscall environment. -/
def happyBase : BaseEnv := ⟨none, none, false, none⟩

/-- Result of applying one chunk: the new state, or an error together with
the state at the moment the exception was thrown (filesystem side effects
performed before the throw persist). -/
inductive StepRes where
  | ok : ReplState → StepRes
  | fail : Err → ReplState → StepRes
deriving DecidableEq

def lowerA : Nat := 97
def lowerZ : Nat := 122

/-- Is `c` a lowercase ASCII letter byte? (`find_first_not_of("abc...z")`.) -/
def isLowerByte (c : Nat) : Bool := decide (lowerA ≤ c ∧ c ≤ lowerZ)

/-- Path of the temporary base file: `db_dir + "/" + tablename + "tmp"`. -/
def tmpPath (db_dir tablename : Bytes) : Bytes :=
  db_dir ++ strBytes "/" ++ tablename ++ strBytes "tmp"

/-- Path of the target base file:
`db_dir + "/" + tablename + ".base" + letter`. -/
def basePath (db_dir tablename : Bytes) (letter : Nat) : Bytes :=
  db_dir ++ strBytes "/" ++ tablename ++ strBytes ".base" ++ [letter]

/-- Path of the table's block data file: `db_dir + "/" + tablename + ".DB"`. -/
def dbPath (db_dir tablename : Bytes) : Bytes :=
  db_dir ++ strBytes "/" ++ tablename ++ strBytes ".DB"

/-- `lseek(fd, off, SEEK_SET)` followed by `io_write(fd, data)` on a file
with content `c`: overwrite `data.length` bytes at byte offset `off`,
zero-filling (sparse extension) when `off` exceeds the current length. -/
def writeAt (c : Bytes) (off : Nat) (data : Bytes) : Bytes :=
  let padded := c ++ List.replicate (off - c.length) 0
  padded.take off ++ data ++ padded.drop (off + data.length)

/-- `FlintDatabaseReplicator::process_changeset_chunk_base`.  On entry the
driver has guaranteed `buf` nonempty (the "Unexpected end of changeset (4)"
check), so reading the letter at `ptr[0]` is in bounds; `headD` covers the
impossible empty case.  `io_write`/`io_sync` on the temporary file are
modelled as always succeeding; the fallible `open`/`rename`/`unlink` calls
take their outcomes from `benv`. -/
def process_changeset_chunk_base (db_dir tablename : Bytes) (benv : BaseEnv)
    (st : ReplState) : StepRes :=
  let letter := st.buf.headD 0
  let cur := st.buf.drop 1
  if letter ≠ 65 ∧ letter ≠ 66 then
    .fail (.network "Invalid base file letter in changeset") st
  else if cur = [] then
    .fail (.network "Unexpected end of changeset (5)") st
  else
    match F_unpack_uint cur with
    | none => .fail (.network "Invalid base file size in changeset") st
    | some (base_size, cur) =>
      let st := consumeTo st cur
      let st := ensureChunk st base_size
      if st.buf.length < base_size then
        .fail (.network "Unexpected end of changeset (6)") st
      else
        let tmp_path := tmpPath db_dir tablename
        let base_path := basePath db_dir tablename letter
        match benv.openErr with
        | some e =>
          .fail (.database ("Failed to open " ++ bytesToString tmp_path) e) st
        | none =>
          let st := { st with fs := fsSet st.fs tmp_path (st.buf.take base_size) }
          let st := consumeTo st (st.buf.drop base_size)
          match benv.renameErr with
          | none => .ok { st with fs := fsRename st.fs tmp_path base_path }
          | some e =>
            -- NFS heuristic: rename reported failure; if it actually
            -- completed on the server the temporary file is gone.
            let st :=
              if benv.renameDone then
                { st with fs := fsRename st.fs tmp_path base_path }
              else st
            let unlinkRes : Option Nat :=
              match benv.unlinkErr with
              | some e2 => some e2
              | none => if (fsGet st.fs tmp_path).isSome then none else some ENOENT
            let st :=
              if unlinkRes = none then { st with fs := fsDel st.fs tmp_path }
              else st
            let msg := "Couldn't update base file " ++ bytesToString tablename
                         ++ ".base" ++ bytesToString [letter]
            match unlinkRes with
            | none => .fail (.database msg e) st
            | some e2 =>
              if e2 ≠ ENOENT then .fail (.database msg e) st else .ok st

/-- The `while (true)` loop of `process_changeset_chunk_blocks`, reading
`(block number, block bytes)` pairs until the zero sentinel.  `fuel` bounds
the number of iterations; every iteration consumes at least one byte (the
block-number integer), so any `fuel > totalLen st` is enough and the
`outOfFuel` branch is unreachable from the driver. -/
def blocksLoop : Nat → Bytes → Nat → ReplState → StepRes
  | 0, _, _, st => .fail .outOfFuel st
  | fuel + 1, db_path, blocksize, st =>
    let st := ensureChunk st REASONABLE_CHANGESET_SIZE
    match F_unpack_uint st.buf with
    | none => .fail (.network "Invalid block number in changeset") st
    | some (block_number, cur) =>
      let st := consumeTo st cur
      if block_number = 0 then .ok st  -- io_sync(fd): no-op in the model
      else
        let idx := block_number - 1
        let st := ensureChunk st blocksize
        if st.buf.length < blocksize then
          .fail (.network "Incomplete block in changeset") st
        else
          let content := fsGetD st.fs db_path []
          let st := { st with
            fs := fsSet st.fs db_path
                    (writeAt content (blocksize * idx) (st.buf.take blocksize)) }
          let st := consumeTo st (st.buf.drop blocksize)
          blocksLoop fuel db_path blocksize st

/-- `FlintDatabaseReplicator::process_changeset_chunk_blocks`.  Opening the
data file is modelled as always succeeding: existing content is kept
(`O_WRONLY` without truncation), and an absent file is created empty. -/
def process_changeset_chunk_blocks (db_dir tablename : Bytes)
    (st : ReplState) : StepRes :=
  match F_unpack_uint st.buf with
  | none => .fail (.network "Invalid blocksize in changeset") st
  | some (changeset_blocksize, cur) =>
    let st := consumeTo st cur
    let db_path := dbPath db_dir tablename
    let st :=
      if (fsGet st.fs db_path).isSome then st
      else { st with fs := fsSet st.fs db_path [] }
    blocksLoop (totalLen st + 1) db_path changeset_blocksize st

/-- Result of the driver's chunk-reading loop: normal exit at a zero tag
(carrying the parse position `cur` just past the tag, from which the footer
is read), or an error. -/
inductive LoopRes where
  | done : ReplState → Bytes → LoopRes
  | fail : Err → ReplState → LoopRes
deriving DecidableEq

/-- The `while (true)` chunk loop of `apply_changeset_from_conn`: read a tag
byte; `0` ends the loop, `1` dispatches to the base-file applier, `2` to the
block applier, anything else is a protocol error.  `benv` supplies the
syscall outcomes of the `baseIdx`-th base chunk.  Every iteration consumes
at least the tag and table name bytes, so any `fuel > totalLen st` is
enough and the `outOfFuel` branch is unreachable from the driver. -/
def chunkLoop : Nat → (Nat → BaseEnv) → Nat → Bytes → ReplState → LoopRes
  | 0, _, _, _, st => .fail .outOfFuel st
  | fuel + 1, benv, baseIdx, db_dir, st =>
    let st := ensureChunk st REASONABLE_CHANGESET_SIZE
    if st.buf = [] then .fail (.network "Unexpected end of changeset (2)") st
    else
      let chunk_type := st.buf.headD 0
      let cur := st.buf.drop 1
      if chunk_type = 0 then .done st cur
      else
        match F_unpack_string cur with
        | none => .fail (.network "Unexpected end of changeset (3)") st
        | some (tablename, cur) =>
          if tablename = [] then
            .fail (.network "Missing tablename in changeset") st
          else if ¬ tablename.all isLowerByte then
            .fail (.network "Invalid character in tablename in changeset") st
          else if cur = [] then
            .fail (.network "Unexpected end of changeset (4)") st
          else
            let st := consumeTo st cur
            if chunk_type = 1 then
              match process_changeset_chunk_base db_dir tablename
                      (benv baseIdx) st with
              | .ok st' => chunkLoop fuel benv (baseIdx + 1) db_dir st'
              | .fail e st' => .fail e st'
            else if chunk_type = 2 then
              match process_changeset_chunk_blocks db_dir tablename st with
              | .ok st' => chunkLoop fuel benv baseIdx db_dir st'
              | .fail e st' => .fail e st'
            else .fail (.network "Unrecognised item type in changeset") st

/-- The environment of one `apply_changeset_from_conn` call: the
`XAPIAN_MAX_CHANGESETS` configuration value, the replica's current on-disk
revision as reported by the record table (read only when `valid` is true),
whether acquiring the database lock succeeds, and the syscall outcomes for
each base chunk in stream order. -/
structure Env where
  maxChangesets : Int
  currentRevision : Nat
  lockOk : Bool
  benv : Nat → BaseEnv

/-- The all-succeeding environment with archival disabled. -/
def happyEnv : Env := ⟨0, 0, true, fun _ => happyBase⟩

instance decEqExceptErrBytes : DecidableEq (Except Err Bytes)
  | .ok a, .ok b =>
    if h : a = b then isTrue (by rw [h]) else isFalse (by simp [h])
  | .ok _, .error _ => isFalse (by simp)
  | .error _, .ok _ => isFalse (by simp)
  | .error a, .error b =>
    if h : a = b then isTrue (by rw [h]) else isFalse (by simp [h])

/-- The result of one apply call: the outcome (the re-packed required
revision on success, or the error thrown), the final state, and the name of
the archival changeset file if one was created (`none` when none was). -/
structure ApplyResult where
  outcome : Except Err Bytes
  state : ReplState
  changes : Option Bytes
deriving DecidableEq

/-- Name of the archival changeset file: `db_dir + "/changes" + startrev`. -/
def changesName (db_dir : Bytes) (startrev : Nat) : Bytes :=
  db_dir ++ strBytes ("/changes" ++ Nat.repr startrev)

/-- Everything `apply_changeset_from_conn` does after the revision guard and
payload-kind check: the chunk loop, the footer read and its two checks, and
the final archive-and-clear of the buffer. -/
def applyRest (benv : Nat → BaseEnv) (db_dir : Bytes) (endrev : Nat)
    (chg : Option Bytes) (cur : Bytes) (st : ReplState) : ApplyResult :=
  let st := consumeTo st cur
  match chunkLoop (totalLen st + 1) benv 0 db_dir st with
  | .fail e st' => ⟨.error e, st', chg⟩
  | .done st' cur' =>
    match F_unpack_uint cur' with
    | none =>
      ⟨.error (.network "Couldn't read a valid required revision from changeset"),
       st', chg⟩
    | some (reqrev, cur'') =>
      if reqrev < endrev then
        ⟨.error (.network "Required revision in changeset is earlier than end revision"),
         st', chg⟩
      else if cur'' ≠ [] then
        ⟨.error (.network "Junk found at end of changeset"), st', chg⟩
      else
        let st'' := consumeTo st' []
        ⟨.ok (F_pack_uint reqrev), st'', chg⟩

/-- `FlintDatabaseReplicator::apply_changeset_from_conn`.  The leading
message-type byte read by `get_message_chunked` belongs to the surrounding
connection framing, not to the changeset payload stream modelled here (it is
only debug-asserted in the source), so `stream` starts at the magic marker.
`valid` is the caller's trust flag. -/
def apply_changeset_from_conn (env : Env) (valid : Bool) (db_dir : Bytes)
    (fs : FS) (stream : Bytes) : ApplyResult :=
  let st : ReplState := ⟨fs, stream, [], []⟩
  if ¬ env.lockOk then
    ⟨.error (.lockError "Unable to acquire database write lock"), st, none⟩
  else
    let st := ensureChunk st REASONABLE_CHANGESET_SIZE
    if ¬ CHANGES_MAGIC_STRING.isPrefixOf st.buf then
      ⟨.error (.network "Invalid ChangeSet magic string"), st, none⟩
    else
      let cur := st.buf.drop CHANGES_MAGIC_STRING.length
      match F_unpack_uint cur with
      | none =>
        ⟨.error (.network "Couldn't read a valid version number from changeset"),
         st, none⟩
      | some (changes_version, cur) =>
        if changes_version ≠ CHANGES_VERSION then
          ⟨.error (.network "Unsupported changeset version"), st, none⟩
        else
          match F_unpack_uint cur with
          | none =>
            ⟨.error (.network "Couldn't read a valid start revision from changeset"),
             st, none⟩
          | some (startrev, cur) =>
            match F_unpack_uint cur with
            | none =>
              ⟨.error (.network "Couldn't read a valid end revision from changeset"),
               st, none⟩
            | some (endrev, cur) =>
              if endrev ≤ startrev then
                ⟨.error (.network "End revision in changeset is not later than start revision"),
                 st, none⟩
              else if cur = [] then
                ⟨.error (.network "Unexpected end of changeset (1)"), st, none⟩
              else
                let chg :=
                  if env.maxChangesets > 0 then
                    some (changesName db_dir startrev)
                  else none
                if valid = true ∧ startrev ≠ env.currentRevision then
                  ⟨.error (.network "Changeset supplied is for wrong revision number"),
                   st, chg⟩
                else
                  let changes_type := cur.headD 0
                  if changes_type ≠ 0 then
                    ⟨.error (.network ("Unsupported changeset type: "
                               ++ Nat.repr changes_type)), st, chg⟩
                  else
                    applyRest env.benv db_dir endrev chg (cur.drop 1) st

/-! ### Specification-side descriptions of well-formed changeset streams

These definitions describe the wire format of §6 of the specification and
the intended net filesystem effect of a chunk sequence; the theorems below
relate them to the embedded code. -/

/-- A decoded chunk: a base-file replacement
`(table_name, generation_letter, content)` or a block chunk
`(table_name, block_size, (index, bytes) pairs)`. -/
inductive Chunk where
  | base : Bytes → Nat → Bytes → Chunk
  | blocks : Bytes → Nat → List (Nat × Bytes) → Chunk
deriving DecidableEq

/-- Wire form of a block list: `varint(index + 1) ∥ bytes` per pair. -/
def serializePairs : List (Nat × Bytes) → Bytes
  | [] => []
  | (i, d) :: rest => F_pack_uint (i + 1) ++ d ++ serializePairs rest

/-- Wire form of one chunk (§6). -/
def serializeChunk : Chunk → Bytes
  | .base tn letter content =>
    1 :: (F_pack_string tn ++ letter :: (F_pack_uint content.length ++ content))
  | .blocks tn bs pairs =>
    2 :: (F_pack_string tn ++ F_pack_uint bs ++ serializePairs pairs ++ F_pack_uint 0)

/-- Wire form of a chunk sequence (without the terminating zero tag). -/
def serializeChunks : List Chunk → Bytes
  | [] => []
  | c :: cs => serializeChunk c ++ serializeChunks cs

/-- Wire form of a whole changeset with payload-kind byte `kind`. -/
def serializeChangeset (startrev endrev : Nat) (kind : Nat) (cs : List Chunk)
    (reqrev : Nat) : Bytes :=
  CHANGES_MAGIC_STRING ++ F_pack_uint CHANGES_VERSION ++ F_pack_uint startrev
    ++ F_pack_uint endrev ++ kind :: (serializeChunks cs ++ 0 :: F_pack_uint reqrev)

/-- Read `n` bytes at byte offset `off` of file content `c`. -/
def blockRead (c : Bytes) (off n : Nat) : Bytes := (c.drop off).take n

/-- The pure effect of a block list: write each pair's bytes at byte offset
`block_size * index`, in list order. -/
def applyBlocks (bs : Nat) (pairs : List (Nat × Bytes)) (c : Bytes) : Bytes :=
  pairs.foldl (fun acc p => writeAt acc (bs * p.1) p.2) c

/-- The bytes of the last pair with index `i`, if any. -/
def lastWrite (i : Nat) : List (Nat × Bytes) → Option Bytes
  | [] => none
  | p :: rest =>
    match lastWrite i rest with
    | some b => some b
    | none => if p.1 = i then some p.2 else none

/-- The net filesystem effect of one successfully applied chunk. -/
def applyChunk (db_dir : Bytes) (fs : FS) : Chunk → FS
  | .base tn letter content =>
    fsRename (fsSet fs (tmpPath db_dir tn) content) (tmpPath db_dir tn)
      (basePath db_dir tn letter)
  | .blocks tn bs pairs =>
    let p := dbPath db_dir tn
    fsSet fs p (applyBlocks bs pairs (fsGetD fs p []))

/-- The net filesystem effect of a chunk sequence. -/
def applyChunks (db_dir : Bytes) (fs : FS) (cs : List Chunk) : FS :=
  cs.foldl (applyChunk db_dir) fs

/-- Well-formed table name: non-empty, lowercase ASCII, and short enough
that tag plus name plus the following integers always fit inside one
`REASONABLE_CHANGESET_SIZE` transport window. -/
def wfNameB (tn : Bytes) : Bool :=
  decide (tn ≠ []) && tn.all isLowerByte && decide (tn.length ≤ 500)

/-- Well-formed block pair list for block size `bs`: every pair's bytes have
length exactly `bs` and every encoded index fits the code's `uint4`. -/
def wfPairsB (bs : Nat) (pairs : List (Nat × Bytes)) : Bool :=
  pairs.all (fun p => decide (p.2.length = bs) && decide (p.1 + 1 < 2 ^ 32))

/-- Well-formed chunk: name constraints, a valid generation letter and a
`string::size_type` base size for base chunks, an `unsigned int` block size
and well-formed pairs for block chunks. -/
def wfChunkB : Chunk → Bool
  | .base tn letter content =>
    wfNameB tn && decide (letter = 65 ∨ letter = 66)
      && decide (content.length < 2 ^ 64)
  | .blocks tn bs pairs =>
    wfNameB tn && decide (bs < 2 ^ 32) && wfPairsB bs pairs

def wfChunksB (cs : List Chunk) : Bool := cs.all wfChunkB

/-- Extensional equality of filesystems: the same content at every path.
The association-list representation is not canonical (insertions reorder
entries), so intermediate results are compared pointwise. -/
def fsEq (a b : FS) : Prop := ∀ q, fsGet a q = fsGet b q

/-! ### Codec lemmas -/

theorem packUintAux_ne_nil (f n : Nat) : packUintAux f n ≠ [] := by
  cases f with
  | zero => simp [packUintAux]
  | succ f =>
    simp only [packUintAux]
    split <;> simp

theorem F_pack_uint_ne_nil (n : Nat) : F_pack_uint n ≠ [] :=
  packUintAux_ne_nil n n

theorem F_unpack_packUintAux :
    ∀ (f n : Nat) (tail : Bytes), n ≤ f →
      F_unpack_uint (packUintAux f n ++ tail) = some (n, tail) := by
  intro f
  induction f with
  | zero =>
    intro n tail hn
    have h0 : n = 0 := Nat.le_zero.mp hn
    subst h0
    simp [packUintAux, F_unpack_uint]
  | succ f ih =>
    intro n tail hn
    by_cases h : n < 128
    · simp [packUintAux, h, F_unpack_uint]
    · have h1 : n / 128 ≤ f := by
        have h2 : n / 128 < n := Nat.div_lt_self (by omega) (by omega)
        omega
      have hrec := ih (n / 128) tail h1
      simp only [packUintAux, if_neg h, List.cons_append]
      simp only [F_unpack_uint]
      rw [if_neg (by omega), hrec]
      simp
      omega

theorem F_unpack_pack (n : Nat) (tail : Bytes) :
    F_unpack_uint (F_pack_uint n ++ tail) = some (n, tail) :=
  F_unpack_packUintAux n n tail (Nat.le_refl n)

theorem packUintAux_length_le :
    ∀ (f n k : Nat), n ≤ f → n < 128 ^ k → 1 ≤ k →
      (packUintAux f n).length ≤ k := by
  intro f
  induction f with
  | zero => intro n k _ _ hk; simpa [packUintAux] using hk
  | succ f ih =>
    intro n k hn hnk hk
    by_cases h : n < 128
    · simpa [packUintAux, h] using hk
    · have hk2 : 2 ≤ k := by
        by_contra hc
        have hk1 : k = 1 := by omega
        subst hk1
        simp [pow_one] at hnk
        omega
      have h1 : n / 128 ≤ f := by
        have h2 : n / 128 < n := Nat.div_lt_self (by omega) (by omega)
        omega
      have h3 : n / 128 < 128 ^ (k - 1) := by
        have h4 : n < 128 ^ (k - 1) * 128 := by
          have : 128 ^ (k - 1) * 128 = 128 ^ k := by
            rw [← pow_succ]
            congr 1
            omega
          omega
        exact Nat.div_lt_of_lt_mul (by omega)
      have hrec := ih (n / 128) (k - 1) h1 h3 (by omega)
      simp only [packUintAux, if_neg h, List.length_cons]
      omega

theorem F_pack_uint_length_le (n k : Nat) (hn : n < 128 ^ k) (hk : 1 ≤ k) :
    (F_pack_uint n).length ≤ k :=
  packUintAux_length_le n n k (Nat.le_refl n) hn hk

/-- Any value below `2 ^ 64` (the largest unsigned width the replicator
decodes into) packs into at most 10 bytes. -/
theorem F_pack_uint_length_le_ten (n : Nat) (hn : n < 2 ^ 64) :
    (F_pack_uint n).length ≤ 10 := by
  refine F_pack_uint_length_le n 10 ?_ (by omega)
  have h : (2 : Nat) ^ 64 ≤ 128 ^ 10 := by norm_num
  omega

theorem F_unpack_pack_string (s tail : Bytes) :
    F_unpack_string (F_pack_string s ++ tail) = some (s, tail) := by
  simp only [F_unpack_string, F_pack_string, List.append_assoc, F_unpack_pack]
  rw [if_neg (by simp)]
  simp [List.take_left' rfl, List.drop_left' rfl]

theorem F_pack_string_length (s : Bytes) :
    (F_pack_string s).length = (F_pack_uint s.length).length + s.length := by
  simp [F_pack_string]

/-! ### Filesystem lemmas -/

theorem fsGet_fsDel_ne (fs : FS) (p q : Bytes) (h : q ≠ p) :
    fsGet (fsDel fs p) q = fsGet fs q := by
  induction fs with
  | nil => rfl
  | cons e t ih =>
    obtain ⟨a, b⟩ := e
    by_cases he : a = p
    · subst he
      have h1 : fsDel ((a, b) :: t) a = fsDel t a := by
        simp [fsDel, List.filter_cons]
      rw [h1, ih]
      simp [fsGet, Ne.symm h]
    · have h1 : fsDel ((a, b) :: t) p = (a, b) :: fsDel t p := by
        simp [fsDel, List.filter_cons, he]
      rw [h1]
      simp only [fsGet]
      by_cases hq : a = q
      · simp [hq]
      · rw [if_neg hq, if_neg hq, ih]

theorem fsGet_fsDel_self (fs : FS) (p : Bytes) :
    fsGet (fsDel fs p) p = none := by
  induction fs with
  | nil => rfl
  | cons e t ih =>
    obtain ⟨a, b⟩ := e
    by_cases he : a = p
    · subst he
      have h1 : fsDel ((a, b) :: t) a = fsDel t a := by
        simp [fsDel, List.filter_cons]
      rw [h1, ih]
    · have h1 : fsDel ((a, b) :: t) p = (a, b) :: fsDel t p := by
        simp [fsDel, List.filter_cons, he]
      rw [h1]
      simp only [fsGet, if_neg he]
      exact ih

theorem fsGet_fsSet_self (fs : FS) (p v : Bytes) :
    fsGet (fsSet fs p v) p = some v := by
  simp [fsSet, fsGet]

theorem fsGet_fsSet_ne (fs : FS) (p q v : Bytes) (h : q ≠ p) :
    fsGet (fsSet fs p v) q = fsGet fs q := by
  simp only [fsSet, fsGet]
  rw [if_neg (Ne.symm h)]
  exact fsGet_fsDel_ne fs p q h

theorem fsDel_fsDel_self (fs : FS) (p : Bytes) :
    fsDel (fsDel fs p) p = fsDel fs p := by
  simp [fsDel, List.filter_filter]

theorem fsDel_fsSet_self (fs : FS) (p v : Bytes) :
    fsDel (fsSet fs p v) p = fsDel fs p := by
  have h1 : fsDel ((p, v) :: fsDel fs p) p = fsDel (fsDel fs p) p := by
    simp [fsDel, List.filter_cons]
  calc fsDel (fsSet fs p v) p = fsDel (fsDel fs p) p := h1
  _ = fsDel fs p := fsDel_fsDel_self fs p

theorem fsSet_fsSet_self (fs : FS) (p v w : Bytes) :
    fsSet (fsSet fs p v) p w = fsSet fs p w := by
  show (p, w) :: fsDel (fsSet fs p v) p = fsSet fs p w
  rw [fsDel_fsSet_self]
  rfl

/-! ### Transport-buffer lemmas -/

theorem ensureChunk_fs (st : ReplState) (n : Nat) :
    (ensureChunk st n).fs = st.fs := rfl

theorem ensureChunk_consumed (st : ReplState) (n : Nat) :
    (ensureChunk st n).consumed = st.consumed := rfl

theorem ensureChunk_cat (st : ReplState) (n : Nat) :
    (ensureChunk st n).buf ++ (ensureChunk st n).stream = st.buf ++ st.stream := by
  simp [ensureChunk]

theorem ensureChunk_buf_len (st : ReplState) (n : Nat) :
    min n (totalLen st) ≤ (ensureChunk st n).buf.length := by
  simp only [ensureChunk, totalLen, List.length_append, List.length_take]
  omega

theorem totalLen_eq (st : ReplState) :
    totalLen st = (st.buf ++ st.stream).length := by
  simp [totalLen]

/-- After `get_message_chunk(buf, n, ...)`, any prefix `l` of the remaining
input with `l.length ≤ n` is entirely inside the buffer. -/
theorem ensureChunk_split (st : ReplState) (n : Nat) (l rest : Bytes)
    (hcat : st.buf ++ st.stream = l ++ rest) (hlen : l.length ≤ n) :
    ∃ t u, (ensureChunk st n).buf = l ++ t ∧ (ensureChunk st n).stream = u ∧
      t ++ u = rest := by
  have hc : (ensureChunk st n).buf ++ (ensureChunk st n).stream = l ++ rest :=
    (ensureChunk_cat st n).trans hcat
  have hb := ensureChunk_buf_len st n
  have htot : totalLen st = l.length + rest.length := by
    rw [totalLen_eq, hcat, List.length_append]
  have hlt : l.length ≤ (ensureChunk st n).buf.length := by omega
  refine ⟨(ensureChunk st n).buf.drop l.length, (ensureChunk st n).stream, ?_, rfl, ?_⟩
  · have h1 : (ensureChunk st n).buf.take l.length = l := by
      have h2 := congrArg (List.take l.length) hc
      rw [List.take_append_of_le_length hlt, List.take_left' rfl] at h2
      exact h2
    conv_lhs => rw [← List.take_append_drop l.length (ensureChunk st n).buf, h1]
  · have h2 := congrArg (List.drop l.length) hc
    rw [List.drop_append_of_le_length hlt, List.drop_left' rfl] at h2
    exact h2

/-- When at most `n` bytes remain, `get_message_chunk(buf, n, ...)` pulls
the whole rest of the message into the buffer. -/
theorem ensureChunk_all (st : ReplState) (n : Nat) (h : totalLen st ≤ n) :
    (ensureChunk st n).buf = st.buf ++ st.stream ∧
      (ensureChunk st n).stream = [] := by
  constructor
  · simp only [ensureChunk]
    rw [List.take_of_length_le (by simp [totalLen] at h; omega)]
  · simp only [ensureChunk]
    rw [List.drop_eq_nil_iff]
    simp [totalLen] at h
    omega

theorem consumeTo_split (st : ReplState) (pre cur : Bytes)
    (h : st.buf = pre ++ cur) :
    consumeTo st cur =
      ⟨st.fs, st.stream, cur, st.consumed ++ pre⟩ := by
  simp only [consumeTo, h, List.length_append]
  congr 1
  rw [Nat.add_sub_cancel, List.take_left]

theorem ReplState.ext' (a b : ReplState) (h1 : a.fs = b.fs)
    (h2 : a.stream = b.stream) (h3 : a.buf = b.buf)
    (h4 : a.consumed = b.consumed) : a = b := by
  cases a
  cases b
  simp_all

/-! ### Path disjointness -/

theorem tmpPath_ne_basePath (d tn : Bytes) (l : Nat) :
    tmpPath d tn ≠ basePath d tn l := by
  intro h
  have hlen := congrArg List.length h
  have h3 : (strBytes "tmp").length = 3 := rfl
  have h6 : (strBytes ".base").length = 5 := rfl
  simp [tmpPath, basePath, List.length_append, h3, h6] at hlen

/-! ### Rename effect lemmas -/

theorem fsGet_fsRename_dst (fs : FS) (src dst : Bytes) (h : src ≠ dst) :
    fsGet (fsRename fs src dst) dst = some (fsGetD fs src []) := by
  simp only [fsRename, if_neg h]
  rw [fsGet_fsDel_ne _ _ _ (Ne.symm h), fsGet_fsSet_self]

theorem fsGet_fsRename_src (fs : FS) (src dst : Bytes) :
    fsGet (fsRename fs src dst) src = if src = dst then fsGet fs src else none := by
  by_cases h : src = dst
  · simp [fsRename, h]
  · simp only [fsRename, if_neg h]
    rw [fsGet_fsDel_self]

theorem fsGet_fsRename_other (fs : FS) (src dst q : Bytes)
    (h1 : q ≠ src) (h2 : q ≠ dst) :
    fsGet (fsRename fs src dst) q = fsGet fs q := by
  by_cases h : src = dst
  · simp [fsRename, h]
  · simp only [fsRename, if_neg h]
    rw [fsGet_fsDel_ne _ _ _ h1, fsGet_fsSet_ne _ _ _ _ h2]

/-! ### Base-file chunk: effect lemmas -/

/-- Successful application of one base-file chunk (`open` and `rename`
succeed): exactly `sz` streamed bytes end up, via the temporary file, at the
base-file path, and the consumed trace grows by exactly the chunk's bytes. -/
theorem process_base_ok (db_dir tn : Bytes) (benv : BaseEnv)
    (st : ReplState) (letter sz : Nat) (content b0 rest : Bytes)
    (hbl : st.buf = letter :: (F_pack_uint sz ++ b0))
    (hcat : b0 ++ st.stream = content ++ rest)
    (hsz : content.length = sz)
    (hletter : letter = 65 ∨ letter = 66)
    (hopen : benv.openErr = none)
    (hrename : benv.renameErr = none) :
    ∃ t u, t ++ u = rest ∧
      process_changeset_chunk_base db_dir tn benv st =
        .ok ⟨fsRename (fsSet st.fs (tmpPath db_dir tn) content)
               (tmpPath db_dir tn) (basePath db_dir tn letter),
             u, t,
             st.consumed ++ (letter :: (F_pack_uint sz ++ content))⟩ := by
  obtain ⟨fs, stream, buf, consumed⟩ := st
  simp only at hbl hcat
  subst hbl
  -- first consume: letter and size varint
  have hpre : (letter :: (F_pack_uint sz ++ b0) : Bytes)
      = (letter :: F_pack_uint sz) ++ b0 := by simp
  have hc1 := consumeTo_split ⟨fs, stream, letter :: (F_pack_uint sz ++ b0), consumed⟩
      (letter :: F_pack_uint sz) b0 (by simp)
  -- window for the content bytes
  have hsplit := ensureChunk_split ⟨fs, stream, b0, consumed ++ (letter :: F_pack_uint sz)⟩
      sz content rest (by simpa using hcat) (le_of_eq hsz)
  obtain ⟨t, u, hbuf2, hstream2, htu⟩ := hsplit
  have hens : ensureChunk ⟨fs, stream, b0, consumed ++ (letter :: F_pack_uint sz)⟩ sz
      = ⟨fs, u, content ++ t, consumed ++ (letter :: F_pack_uint sz)⟩ :=
    ReplState.ext' _ _ rfl hstream2 hbuf2 rfl
  have htake : (content ++ t).take sz = content := List.take_left' hsz
  have hdrop : (content ++ t).drop sz = t := List.drop_left' hsz
  have hc2 := consumeTo_split
      ⟨fsSet fs (tmpPath db_dir tn) content, u, content ++ t,
        consumed ++ (letter :: F_pack_uint sz)⟩ content t
      (by simp)
  refine ⟨t, u, htu, ?_⟩
  simp only [process_changeset_chunk_base, List.headD_cons, List.drop_one,
    List.tail_cons]
  rw [if_neg (by rcases hletter with h | h <;> simp [h])]
  rw [if_neg (by simp [F_pack_uint_ne_nil])]
  rw [F_unpack_pack]
  simp only [hc1, hens, hopen, hrename]
  rw [if_neg (by simp [← hsz])]
  simp only [htake, hdrop]
  rw [hc2]
  simp

/-- A generation letter other than `'A'`/`'B'` is rejected immediately, with
no state change. -/
theorem process_base_badLetter (db_dir tn : Bytes) (benv : BaseEnv)
    (st : ReplState) (letter : Nat) (r : Bytes)
    (hbl : st.buf = letter :: r)
    (h65 : letter ≠ 65) (h66 : letter ≠ 66) :
    process_changeset_chunk_base db_dir tn benv st =
      .fail (.network "Invalid base file letter in changeset") st := by
  simp only [process_changeset_chunk_base, hbl, List.headD_cons]
  rw [if_pos ⟨h65, h66⟩]

/-- When fewer than the declared `byte_size` bytes are available in the
whole remaining input, the chunk fails with "Unexpected end of changeset
(6)" and no file is touched. -/
theorem process_base_short (db_dir tn : Bytes) (benv : BaseEnv)
    (st : ReplState) (letter sz : Nat) (b0 : Bytes)
    (hbl : st.buf = letter :: (F_pack_uint sz ++ b0))
    (hletter : letter = 65 ∨ letter = 66)
    (hshort : b0.length + st.stream.length < sz) :
    process_changeset_chunk_base db_dir tn benv st =
      .fail (.network "Unexpected end of changeset (6)")
        ⟨st.fs, [], b0 ++ st.stream,
         st.consumed ++ (letter :: F_pack_uint sz)⟩ := by
  obtain ⟨fs, stream, buf, consumed⟩ := st
  simp only at hbl hshort
  subst hbl
  have hc1 := consumeTo_split ⟨fs, stream, letter :: (F_pack_uint sz ++ b0), consumed⟩
      (letter :: F_pack_uint sz) b0 (by simp)
  have hall := ensureChunk_all ⟨fs, stream, b0, consumed ++ (letter :: F_pack_uint sz)⟩
      sz (by simp [totalLen]; omega)
  have hens : ensureChunk ⟨fs, stream, b0, consumed ++ (letter :: F_pack_uint sz)⟩ sz
      = ⟨fs, [], b0 ++ stream, consumed ++ (letter :: F_pack_uint sz)⟩ :=
    ReplState.ext' _ _ rfl hall.2 hall.1 rfl
  simp only [process_changeset_chunk_base, List.headD_cons, List.drop_one,
    List.tail_cons]
  rw [if_neg (by rcases hletter with h | h <;> simp [h])]
  rw [if_neg (by simp [F_pack_uint_ne_nil])]
  rw [F_unpack_pack]
  simp only [hc1, hens]
  rw [if_pos (by simp; omega)]

/-- Behaviour of the NFS rename-race recovery heuristic, for every syscall
outcome of the recovery `unlink`: the chunk is treated as successfully
applied exactly when the unlink fails with `ENOENT`; when the unlink
*succeeds* (the temporary file still existed, so the rename genuinely did
not happen) or fails with any other errno, a `DatabaseError` carrying the
original rename errno is thrown. -/
theorem process_base_renameFail (db_dir tn : Bytes) (benv : BaseEnv)
    (st : ReplState) (letter sz e : Nat) (content b0 rest : Bytes)
    (hbl : st.buf = letter :: (F_pack_uint sz ++ b0))
    (hcat : b0 ++ st.stream = content ++ rest)
    (hsz : content.length = sz)
    (hletter : letter = 65 ∨ letter = 66)
    (hopen : benv.openErr = none)
    (hrename : benv.renameErr = some e) :
    (benv.unlinkErr = some ENOENT →
      ∃ st', process_changeset_chunk_base db_dir tn benv st = .ok st') ∧
    (benv.unlinkErr = none → benv.renameDone = true →
      ∃ st', process_changeset_chunk_base db_dir tn benv st = .ok st' ∧
        fsGet st'.fs (basePath db_dir tn letter) = some content) ∧
    (benv.unlinkErr = none → benv.renameDone = false →
      ∃ st', process_changeset_chunk_base db_dir tn benv st =
          .fail (.database ("Couldn't update base file " ++ bytesToString tn
            ++ ".base" ++ bytesToString [letter]) e) st' ∧
        fsGet st'.fs (tmpPath db_dir tn) = none) ∧
    (∀ e2, benv.unlinkErr = some e2 → e2 ≠ ENOENT →
      ∃ st', process_changeset_chunk_base db_dir tn benv st =
          .fail (.database ("Couldn't update base file " ++ bytesToString tn
            ++ ".base" ++ bytesToString [letter]) e) st') := by
  obtain ⟨fs, stream, buf, consumed⟩ := st
  simp only at hbl hcat
  subst hbl
  have hc1 := consumeTo_split ⟨fs, stream, letter :: (F_pack_uint sz ++ b0), consumed⟩
      (letter :: F_pack_uint sz) b0 (by simp)
  have hsplit := ensureChunk_split ⟨fs, stream, b0, consumed ++ (letter :: F_pack_uint sz)⟩
      sz content rest (by simpa using hcat) (le_of_eq hsz)
  obtain ⟨t, u, hbuf2, hstream2, htu⟩ := hsplit
  have hens : ensureChunk ⟨fs, stream, b0, consumed ++ (letter :: F_pack_uint sz)⟩ sz
      = ⟨fs, u, content ++ t, consumed ++ (letter :: F_pack_uint sz)⟩ :=
    ReplState.ext' _ _ rfl hstream2 hbuf2 rfl
  have htake : (content ++ t).take sz = content := List.take_left' hsz
  have hdrop : (content ++ t).drop sz = t := List.drop_left' hsz
  have hc2 := consumeTo_split
      ⟨fsSet fs (tmpPath db_dir tn) content, u, content ++ t,
        consumed ++ (letter :: F_pack_uint sz)⟩ content t
      (by simp)
  have hne1 : ¬(letter ≠ 65 ∧ letter ≠ 66) := by
    rcases hletter with h | h <;> simp [h]
  have hne2 : F_pack_uint sz ++ b0 ≠ ([] : Bytes) := by
    simp [F_pack_uint_ne_nil]
  refine ⟨?_, ?_, ?_, ?_⟩
  · -- forced ENOENT from the unlink: recovery succeeds
    intro hu
    by_cases hdone : benv.renameDone = true
    · refine ⟨⟨fsRename (fsSet fs (tmpPath db_dir tn) content)
          (tmpPath db_dir tn) (basePath db_dir tn letter), u, t,
          (consumed ++ (letter :: F_pack_uint sz)) ++ content⟩, ?_⟩
      simp only [process_changeset_chunk_base, List.headD_cons, List.drop_one,
        List.tail_cons]
      rw [if_neg hne1, if_neg hne2, F_unpack_pack]
      simp only [hc1, hens, hopen, hrename]
      rw [if_neg (by simp [← hsz])]
      simp only [htake, hdrop]
      rw [hc2]
      simp [hu, hdone, ENOENT]
    · refine ⟨⟨fsSet fs (tmpPath db_dir tn) content, u, t,
          (consumed ++ (letter :: F_pack_uint sz)) ++ content⟩, ?_⟩
      simp only [process_changeset_chunk_base, List.headD_cons, List.drop_one,
        List.tail_cons]
      rw [if_neg hne1, if_neg hne2, F_unpack_pack]
      simp only [hc1, hens, hopen, hrename]
      rw [if_neg (by simp [← hsz])]
      simp only [htake, hdrop]
      rw [hc2]
      simp [hu, hdone, ENOENT]
  · -- rename actually completed: temp file absent, unlink yields ENOENT
    intro hu hdone
    refine ⟨⟨fsRename (fsSet fs (tmpPath db_dir tn) content)
        (tmpPath db_dir tn) (basePath db_dir tn letter), u, t,
        (consumed ++ (letter :: F_pack_uint sz)) ++ content⟩, ?_, ?_⟩
    · simp only [process_changeset_chunk_base, List.headD_cons, List.drop_one,
        List.tail_cons]
      rw [if_neg hne1, if_neg hne2, F_unpack_pack]
      simp only [hc1, hens, hopen, hrename]
      rw [if_neg (by simp [← hsz])]
      simp only [htake, hdrop]
      rw [hc2]
      have hget : fsGet (fsRename (fsSet fs (tmpPath db_dir tn) content)
          (tmpPath db_dir tn) (basePath db_dir tn letter))
          (tmpPath db_dir tn) = none := by
        rw [fsGet_fsRename_src]
        rw [if_neg (tmpPath_ne_basePath db_dir tn letter)]
      simp [hu, hdone, hget, ENOENT]
    · rw [fsGet_fsRename_dst _ _ _ (tmpPath_ne_basePath db_dir tn letter)]
      simp [fsGetD, fsGet_fsSet_self]
  · -- rename really failed: unlink succeeds, and the code throws
    intro hu hdone
    refine ⟨⟨fsDel (fsSet fs (tmpPath db_dir tn) content) (tmpPath db_dir tn),
        u, t, (consumed ++ (letter :: F_pack_uint sz)) ++ content⟩, ?_, ?_⟩
    · simp only [process_changeset_chunk_base, List.headD_cons, List.drop_one,
        List.tail_cons]
      rw [if_neg hne1, if_neg hne2, F_unpack_pack]
      simp only [hc1, hens, hopen, hrename]
      rw [if_neg (by simp [← hsz])]
      simp only [htake, hdrop]
      rw [hc2]
      have hget : (fsGet (fsSet fs (tmpPath db_dir tn) content)
          (tmpPath db_dir tn)).isSome = true := by
        rw [fsGet_fsSet_self]
        rfl
      simp [hu, hdone, hget]
    · simp only [fsGet_fsDel_self]
  · -- unlink fails with a different errno: the code throws
    intro e2 hu hne
    by_cases hdone : benv.renameDone = true
    · refine ⟨⟨fsRename (fsSet fs (tmpPath db_dir tn) content)
          (tmpPath db_dir tn) (basePath db_dir tn letter), u, t,
          (consumed ++ (letter :: F_pack_uint sz)) ++ content⟩, ?_⟩
      simp only [process_changeset_chunk_base, List.headD_cons, List.drop_one,
        List.tail_cons]
      rw [if_neg hne1, if_neg hne2, F_unpack_pack]
      simp only [hc1, hens, hopen, hrename]
      rw [if_neg (by simp [← hsz])]
      simp only [htake, hdrop]
      rw [hc2]
      simp [hu, hne, hdone]
    · refine ⟨⟨fsSet fs (tmpPath db_dir tn) content, u, t,
          (consumed ++ (letter :: F_pack_uint sz)) ++ content⟩, ?_⟩
      simp only [process_changeset_chunk_base, List.headD_cons, List.drop_one,
        List.tail_cons]
      rw [if_neg hne1, if_neg hne2, F_unpack_pack]
      simp only [hc1, hens, hopen, hrename]
      rw [if_neg (by simp [← hsz])]
      simp only [htake, hdrop]
      rw [hc2]
      simp [hu, hne, hdone]

/-! ### Extensional filesystem equality -/

theorem fsEq_refl (a : FS) : fsEq a a := fun _ => rfl

theorem fsEq_symm {a b : FS} (h : fsEq a b) : fsEq b a := fun q => (h q).symm

theorem fsEq_trans {a b c : FS} (h1 : fsEq a b) (h2 : fsEq b c) : fsEq a c :=
  fun q => (h1 q).trans (h2 q)

theorem fsEq_of_eq {a b : FS} (h : a = b) : fsEq a b := h ▸ fsEq_refl a

theorem fsGetD_congr {a b : FS} (h : fsEq a b) (p d : Bytes) :
    fsGetD a p d = fsGetD b p d := by
  simp [fsGetD, h p]

theorem fsSet_congr {a b : FS} (h : fsEq a b) (p v : Bytes) :
    fsEq (fsSet a p v) (fsSet b p v) := by
  intro q
  by_cases hq : q = p
  · subst hq
    rw [fsGet_fsSet_self, fsGet_fsSet_self]
  · rw [fsGet_fsSet_ne _ _ _ _ hq, fsGet_fsSet_ne _ _ _ _ hq]
    exact h q

theorem fsDel_congr {a b : FS} (h : fsEq a b) (p : Bytes) :
    fsEq (fsDel a p) (fsDel b p) := by
  intro q
  by_cases hq : q = p
  · subst hq
    rw [fsGet_fsDel_self, fsGet_fsDel_self]
  · rw [fsGet_fsDel_ne _ _ _ hq, fsGet_fsDel_ne _ _ _ hq]
    exact h q

theorem fsRename_congr {a b : FS} (h : fsEq a b) (src dst : Bytes) :
    fsEq (fsRename a src dst) (fsRename b src dst) := by
  by_cases hsd : src = dst
  · simpa [fsRename, hsd] using h
  · simp only [fsRename, if_neg hsd]
    have hv : fsGetD a src [] = fsGetD b src [] := fsGetD_congr h src []
    rw [hv]
    exact fsDel_congr (fsSet_congr h dst (fsGetD b src [])) src

/-- If the file already holds `v`, re-writing `v` changes nothing
observable. -/
theorem fsEq_fsSet_of_get {fs : FS} {p v : Bytes} (h : fsGet fs p = some v) :
    fsEq (fsSet fs p v) fs := by
  intro q
  by_cases hq : q = p
  · subst hq
    rw [fsGet_fsSet_self, h]
  · rw [fsGet_fsSet_ne _ _ _ _ hq]

theorem applyChunk_congr {a b : FS} (h : fsEq a b) (db_dir : Bytes)
    (c : Chunk) : fsEq (applyChunk db_dir a c) (applyChunk db_dir b c) := by
  cases c with
  | base tn letter content =>
    exact fsRename_congr (fsSet_congr h _ _) _ _
  | blocks tn bs pairs =>
    simp only [applyChunk]
    rw [fsGetD_congr h]
    exact fsSet_congr h _ _

theorem applyChunks_congr {a b : FS} (h : fsEq a b) (db_dir : Bytes)
    (cs : List Chunk) : fsEq (applyChunks db_dir a cs) (applyChunks db_dir b cs) := by
  induction cs generalizing a b with
  | nil => exact h
  | cons c cs ih =>
    exact ih (applyChunk_congr h db_dir c)

theorem applyChunks_cons (db_dir : Bytes) (fs : FS) (c : Chunk) (cs : List Chunk) :
    applyChunks db_dir fs (c :: cs) = applyChunks db_dir (applyChunk db_dir fs c) cs := rfl

/-! ### Block write lemmas -/

theorem writeAt_length (c : Bytes) (off : Nat) (d : Bytes) :
    (writeAt c off d).length = max (off + d.length) c.length := by
  simp only [writeAt, List.length_append, List.length_take, List.length_drop,
    List.length_replicate]
  omega

theorem blockRead_writeAt_self (c : Bytes) (off : Nat) (d : Bytes) :
    blockRead (writeAt c off d) off d.length = d := by
  have hplen : (c ++ List.replicate (off - c.length) 0).length = max c.length off := by
    simp only [List.length_append, List.length_replicate]
    omega
  have htk : ((c ++ List.replicate (off - c.length) 0).take off).length = off := by
    simp only [List.length_take]
    omega
  simp only [writeAt, blockRead]
  rw [List.append_assoc, List.drop_left' htk, List.take_left' rfl]

theorem blockRead_append_right (c tail : Bytes) (off2 n : Nat)
    (hin : off2 + n ≤ c.length) :
    blockRead (c ++ tail) off2 n = blockRead c off2 n := by
  simp only [blockRead]
  rw [List.drop_append_of_le_length (by omega)]
  rw [List.take_append_of_le_length (by simp; omega)]

theorem blockRead_writeAt_other (c : Bytes) (off : Nat) (d : Bytes)
    (off2 n : Nat) (hdisj : off2 + n ≤ off ∨ off + d.length ≤ off2)
    (hin : off2 + n ≤ c.length) :
    blockRead (writeAt c off d) off2 n = blockRead c off2 n := by
  have hplen : (c ++ List.replicate (off - c.length) 0).length = max c.length off := by
    simp only [List.length_append, List.length_replicate]
    omega
  have hpad : blockRead (c ++ List.replicate (off - c.length) 0) off2 n
      = blockRead c off2 n := blockRead_append_right _ _ _ _ hin
  set padded := c ++ List.replicate (off - c.length) 0 with hpdef
  have htk : (padded.take off).length = off := by
    simp only [List.length_take]
    omega
  rcases hdisj with hlt | hgt
  · -- the read lies entirely before the written region
    simp only [writeAt, blockRead, ← hpdef]
    rw [List.append_assoc]
    rw [List.drop_append_of_le_length (by omega)]
    rw [List.take_append_of_le_length (by simp only [List.length_drop, htk]; omega)]
    rw [List.drop_take, List.take_take, min_eq_left (by omega)]
    exact hpad
  · -- the read lies entirely after the written region
    simp only [writeAt, blockRead, ← hpdef]
    rw [List.drop_append_eq_append_drop]
    have hlen2 : (List.take off padded ++ d).length = off + d.length := by
      simp [htk]
    rw [List.drop_eq_nil_iff.mpr (by rw [hlen2]; omega)]
    rw [List.nil_append, hlen2, List.drop_drop]
    have harith : off + d.length + (off2 - (off + d.length)) = off2 := by omega
    rw [harith]
    exact hpad

theorem applyBlocks_nil (bs : Nat) (c : Bytes) : applyBlocks bs [] c = c := rfl

theorem applyBlocks_cons (bs : Nat) (p : Nat × Bytes) (rest : List (Nat × Bytes))
    (c : Bytes) :
    applyBlocks bs (p :: rest) c = applyBlocks bs rest (writeAt c (bs * p.1) p.2) := rfl

theorem applyBlocks_length_mono (bs : Nat) (pairs : List (Nat × Bytes)) (c : Bytes) :
    c.length ≤ (applyBlocks bs pairs c).length := by
  induction pairs generalizing c with
  | nil => exact Nat.le_refl _
  | cons p rest ih =>
    rw [applyBlocks_cons]
    refine Nat.le_trans ?_ (ih (writeAt c (bs * p.1) p.2))
    rw [writeAt_length]
    omega

/-- Writes to other block indices leave a fully materialised block
untouched. -/
theorem applyBlocks_frame (bs : Nat) (pairs : List (Nat × Bytes)) :
    ∀ (c : Bytes) (i : Nat),
      (∀ p ∈ pairs, (p : Nat × Bytes).1 ≠ i) →
      (∀ p ∈ pairs, (p : Nat × Bytes).2.length = bs) →
      bs * i + bs ≤ c.length →
      blockRead (applyBlocks bs pairs c) (bs * i) bs = blockRead c (bs * i) bs := by
  induction pairs with
  | nil => intro c i _ _ _; rfl
  | cons p rest ih =>
    intro c i hni hlen hin
    obtain ⟨j, d⟩ := p
    have hji : j ≠ i := hni (j, d) (List.mem_cons_self _ _)
    have hd : d.length = bs := hlen (j, d) (List.mem_cons_self _ _)
    have hdisj : bs * i + bs ≤ bs * j ∨ bs * j + d.length ≤ bs * i := by
      rcases Nat.lt_or_ge j i with hj | hj
      · right
        rw [hd]
        calc bs * j + bs = bs * (j + 1) := by ring
        _ ≤ bs * i := Nat.mul_le_mul_left bs (by omega)
      · left
        have hij : i < j := by omega
        calc bs * i + bs = bs * (i + 1) := by ring
        _ ≤ bs * j := Nat.mul_le_mul_left bs (by omega)
    rw [applyBlocks_cons]
    have hin2 : bs * i + bs ≤ (writeAt c (bs * j) d).length := by
      rw [writeAt_length]
      omega
    rw [ih (writeAt c (bs * j) d) i
        (fun p hp => hni p (List.mem_cons_of_mem _ hp))
        (fun p hp => hlen p (List.mem_cons_of_mem _ hp)) hin2]
    exact blockRead_writeAt_other c (bs * j) d (bs * i) bs (by tauto) hin

theorem lastWrite_none (i : Nat) (pairs : List (Nat × Bytes))
    (h : lastWrite i pairs = none) : ∀ p ∈ pairs, (p : Nat × Bytes).1 ≠ i := by
  induction pairs with
  | nil => intro p hp; cases hp
  | cons q rest ih =>
    intro p hp
    simp only [lastWrite] at h
    rcases hr : lastWrite i rest with _ | b
    · rw [hr] at h
      simp only at h
      rcases List.mem_cons.mp hp with hq | hq
      · subst hq
        intro hc
        rw [if_pos hc] at h
        cases h
      · exact ih hr p hq
    · rw [hr] at h
      cases h

/-- The content of each written block in the final file is the bytes of the
last pair in the sequence with that block's index. -/
theorem applyBlocks_lastWrite (bs : Nat) (pairs : List (Nat × Bytes)) :
    ∀ (c : Bytes) (i : Nat) (b : Bytes),
      (∀ p ∈ pairs, (p : Nat × Bytes).2.length = bs) →
      lastWrite i pairs = some b →
      blockRead (applyBlocks bs pairs c) (bs * i) bs = b := by
  induction pairs with
  | nil => intro c i b _ hlast; cases hlast
  | cons p rest ih =>
    intro c i b hlen hlast
    obtain ⟨j, d⟩ := p
    rw [applyBlocks_cons]
    rcases hr : lastWrite i rest with _ | b'
    · -- the head pair is the last write of index i
      simp only [lastWrite, hr] at hlast
      have hji : j = i := by
        by_contra hc
        rw [if_neg hc] at hlast
        cases hlast
      have hdb : d = b := by
        rw [if_pos hji] at hlast
        exact Option.some.inj hlast
      subst hji hdb
      have hd : d.length = bs := hlen (j, d) (List.mem_cons_self _ _)
      have hni := lastWrite_none j rest hr
      have hin : bs * j + bs ≤ (writeAt c (bs * j) d).length := by
        rw [writeAt_length]
        omega
      rw [applyBlocks_frame bs rest (writeAt c (bs * j) d) j hni
          (fun p hp => hlen p (List.mem_cons_of_mem _ hp)) hin]
      have hself := blockRead_writeAt_self c (bs * j) d
      rw [hd] at hself
      exact hself
    · -- a later pair overwrites index i
      simp only [lastWrite, hr] at hlast
      have hbb : b' = b := Option.some.inj hlast
      rw [hbb] at hr
      exact ih (writeAt c (bs * j) d) i b
        (fun p hp => hlen p (List.mem_cons_of_mem _ hp)) hr

/-! ### Block chunk simulation -/

theorem F_pack_uint_length_pos (n : Nat) : 1 ≤ (F_pack_uint n).length :=
  List.length_pos.mpr (F_pack_uint_ne_nil n)

theorem F_pack_uint_le_RCS_of_lt_u32 (n : Nat) (h : n < 2 ^ 32) :
    (F_pack_uint n).length ≤ REASONABLE_CHANGESET_SIZE := by
  have h5 : (F_pack_uint n).length ≤ 5 := by
    refine F_pack_uint_length_le n 5 ?_ (by omega)
    have : (2 : Nat) ^ 32 ≤ 128 ^ 5 := by norm_num
    omega
  simp only [REASONABLE_CHANGESET_SIZE]
  omega

/-- Running the block-reading loop on a well-formed serialized pair list
applies exactly those writes, consumes exactly the serialized bytes, and
stops at the zero sentinel. -/
theorem blocksLoop_sim (pairs : List (Nat × Bytes)) :
    ∀ (fuel : Nat) (db_path : Bytes) (bs : Nat) (st : ReplState) (c0 rest : Bytes),
      totalLen st < fuel →
      wfPairsB bs pairs = true →
      fsGet st.fs db_path = some c0 →
      st.buf ++ st.stream = serializePairs pairs ++ (F_pack_uint 0 ++ rest) →
      ∃ fs' t u, t ++ u = rest ∧
        blocksLoop fuel db_path bs st =
          .ok ⟨fs', u, t, st.consumed ++ (serializePairs pairs ++ F_pack_uint 0)⟩ ∧
        fsEq fs' (fsSet st.fs db_path (applyBlocks bs pairs c0)) := by
  induction pairs with
  | nil =>
    intro fuel db_path bs st c0 rest hfuel hwf hget hcat
    cases fuel with
    | zero => exact absurd hfuel (Nat.not_lt_zero _)
    | succ f =>
      simp only [serializePairs, List.nil_append] at hcat
      obtain ⟨t, u, hbuf, hstream, htu⟩ :=
        ensureChunk_split st REASONABLE_CHANGESET_SIZE (F_pack_uint 0) rest hcat
          (F_pack_uint_le_RCS_of_lt_u32 0 (by norm_num))
      have hens : ensureChunk st REASONABLE_CHANGESET_SIZE =
          ⟨st.fs, u, F_pack_uint 0 ++ t, st.consumed⟩ :=
        ReplState.ext' _ _ rfl hstream hbuf rfl
      have hcons := consumeTo_split ⟨st.fs, u, F_pack_uint 0 ++ t, st.consumed⟩
          (F_pack_uint 0) t rfl
      refine ⟨st.fs, t, u, htu, ?_, ?_⟩
      · simp only [blocksLoop, hens]
        rw [F_unpack_pack]
        simp only [hcons]
        simp [serializePairs]
      · exact fsEq_symm (fsEq_fsSet_of_get hget)
  | cons p rest' ih =>
    intro fuel db_path bs st c0 rest hfuel hwf hget hcat
    obtain ⟨j, d⟩ := p
    cases fuel with
    | zero => exact absurd hfuel (Nat.not_lt_zero _)
    | succ f =>
      have hwf2 : (d.length = bs ∧ j + 1 < 2 ^ 32) ∧ wfPairsB bs rest' = true := by
        simp only [wfPairsB, List.all_cons, Bool.and_eq_true, decide_eq_true_eq] at hwf ⊢
        tauto
      obtain ⟨⟨hd, hj⟩, hwfrest⟩ := hwf2
      have hcat1 : st.buf ++ st.stream
          = F_pack_uint (j + 1)
            ++ (d ++ (serializePairs rest' ++ (F_pack_uint 0 ++ rest))) := by
        simpa [serializePairs, List.append_assoc] using hcat
      obtain ⟨t1, u1, hbuf1, hstream1, htu1⟩ :=
        ensureChunk_split st REASONABLE_CHANGESET_SIZE (F_pack_uint (j + 1)) _
          hcat1 (F_pack_uint_le_RCS_of_lt_u32 (j + 1) hj)
      have hens1 : ensureChunk st REASONABLE_CHANGESET_SIZE
          = ⟨st.fs, u1, F_pack_uint (j + 1) ++ t1, st.consumed⟩ :=
        ReplState.ext' _ _ rfl hstream1 hbuf1 rfl
      have hcons1 := consumeTo_split ⟨st.fs, u1, F_pack_uint (j + 1) ++ t1, st.consumed⟩
          (F_pack_uint (j + 1)) t1 rfl
      obtain ⟨t2, u2, hbuf2, hstream2, htu2⟩ :=
        ensureChunk_split ⟨st.fs, u1, t1, st.consumed ++ F_pack_uint (j + 1)⟩ bs d
          (serializePairs rest' ++ (F_pack_uint 0 ++ rest))
          (by simpa using htu1) (le_of_eq hd)
      have hens2 : ensureChunk ⟨st.fs, u1, t1, st.consumed ++ F_pack_uint (j + 1)⟩ bs
          = ⟨st.fs, u2, d ++ t2, st.consumed ++ F_pack_uint (j + 1)⟩ :=
        ReplState.ext' _ _ rfl hstream2 hbuf2 rfl
      have hc0 : fsGetD st.fs db_path [] = c0 := by
        simp [fsGetD, hget]
      have htake : (d ++ t2).take bs = d := List.take_left' hd
      have hdrop : (d ++ t2).drop bs = t2 := List.drop_left' hd
      have hcons2 := consumeTo_split
          ⟨fsSet st.fs db_path (writeAt c0 (bs * j) d), u2, d ++ t2,
            st.consumed ++ F_pack_uint (j + 1)⟩ d t2 rfl
      -- fuel bound for the recursive call
      have hlp : 1 ≤ (F_pack_uint (j + 1)).length := F_pack_uint_length_pos _
      have hl1 : totalLen st
          = (F_pack_uint (j + 1)).length
            + (d.length + (serializePairs rest' ++ (F_pack_uint 0 ++ rest)).length) := by
        rw [totalLen_eq, hcat1]
        simp [List.length_append]
      have hl2 : t2.length + u2.length
          = (serializePairs rest' ++ (F_pack_uint 0 ++ rest)).length := by
        rw [← List.length_append, htu2]
      have hrec := ih f db_path bs
          ⟨fsSet st.fs db_path (writeAt c0 (bs * j) d), u2, t2,
            (st.consumed ++ F_pack_uint (j + 1)) ++ d⟩
          (writeAt c0 (bs * j) d) rest
          (by simp only [totalLen]; omega)
          hwfrest (fsGet_fsSet_self _ _ _) (by simpa using htu2)
      obtain ⟨fs', t, u, htu, heq, hfeq⟩ := hrec
      refine ⟨fs', t, u, htu, ?_, ?_⟩
      · simp only [blocksLoop, hens1]
        rw [F_unpack_pack]
        simp only [hcons1]
        rw [if_neg (by omega)]
        simp only [Nat.add_sub_cancel, hens2]
        rw [if_neg (by simp [hd])]
        simp only [hc0, htake, hdrop, hcons2]
        rw [heq]
        congr 2
        simp [serializePairs, List.append_assoc]
      · rw [fsSet_fsSet_self] at hfeq
        exact hfeq

/-- Simulation of one whole block chunk (after the driver consumed the tag
and table name): the data file receives exactly the decoded writes, in
stream order. -/
theorem process_blocks_sim (db_dir tn : Bytes) (st : ReplState) (bs : Nat)
    (pairs : List (Nat × Bytes)) (b0 rest : Bytes)
    (hbl : st.buf = F_pack_uint bs ++ b0)
    (hcat : b0 ++ st.stream = serializePairs pairs ++ (F_pack_uint 0 ++ rest))
    (hwf : wfPairsB bs pairs = true) :
    ∃ fs' t u, t ++ u = rest ∧
      process_changeset_chunk_blocks db_dir tn st =
        .ok ⟨fs', u, t,
          st.consumed ++ (F_pack_uint bs ++ (serializePairs pairs ++ F_pack_uint 0))⟩ ∧
      fsEq fs' (applyChunk db_dir st.fs (.blocks tn bs pairs)) := by
  obtain ⟨fs, stream, buf, consumed⟩ := st
  simp only at hbl hcat
  subst hbl
  have hcons1 := consumeTo_split ⟨fs, stream, F_pack_uint bs ++ b0, consumed⟩
      (F_pack_uint bs) b0 rfl
  by_cases hex : (fsGet fs (dbPath db_dir tn)).isSome
  · obtain ⟨c0, hc0⟩ := Option.isSome_iff_exists.mp hex
    have hrec := blocksLoop_sim pairs
        (totalLen ⟨fs, stream, b0, consumed ++ F_pack_uint bs⟩ + 1)
        (dbPath db_dir tn) bs ⟨fs, stream, b0, consumed ++ F_pack_uint bs⟩ c0 rest
        (Nat.lt_succ_self _) hwf hc0 (by simpa using hcat)
    obtain ⟨fs', t, u, htu, heq, hfeq⟩ := hrec
    refine ⟨fs', t, u, htu, ?_, ?_⟩
    · simp only [process_changeset_chunk_blocks]
      rw [F_unpack_pack]
      simp only [hcons1, hex, if_true]
      rw [heq]
      congr 2
      simp [List.append_assoc]
    · refine fsEq_trans hfeq ?_
      simp only [applyChunk]
      have : fsGetD fs (dbPath db_dir tn) [] = c0 := by simp [fsGetD, hc0]
      rw [this]
      exact fsEq_refl _
  · have hrec := blocksLoop_sim pairs
        (totalLen ⟨fsSet fs (dbPath db_dir tn) [], stream, b0,
          consumed ++ F_pack_uint bs⟩ + 1)
        (dbPath db_dir tn) bs
        ⟨fsSet fs (dbPath db_dir tn) [], stream, b0, consumed ++ F_pack_uint bs⟩
        [] rest (Nat.lt_succ_self _) hwf (fsGet_fsSet_self _ _ _) (by simpa using hcat)
    obtain ⟨fs', t, u, htu, heq, hfeq⟩ := hrec
    refine ⟨fs', t, u, htu, ?_, ?_⟩
    · simp only [process_changeset_chunk_blocks]
      rw [F_unpack_pack]
      simp only [hcons1, hex, Bool.false_eq_true, if_false]
      rw [heq]
      congr 2
      simp [List.append_assoc]
    · rw [fsSet_fsSet_self] at hfeq
      refine fsEq_trans hfeq ?_
      simp only [applyChunk]
      have hnone : fsGet fs (dbPath db_dir tn) = none := by
        rcases h : fsGet fs (dbPath db_dir tn) with _ | v
        · rfl
        · rw [h] at hex; simp at hex
      have : fsGetD fs (dbPath db_dir tn) [] = [] := by simp [fsGetD, hnone]
      rw [this]
      exact fsEq_refl _

/-! ### Chunk loop simulation -/

theorem F_pack_string_le (tn : Bytes) (h : tn.length ≤ 500) :
    (F_pack_string tn).length ≤ 502 := by
  rw [F_pack_string_length]
  have h2 : (F_pack_uint tn.length).length ≤ 2 := by
    refine F_pack_uint_length_le _ 2 ?_ (by omega)
    have : (128 : Nat) ^ 2 = 16384 := by norm_num
    omega
  omega

theorem wfNameB_spec (tn : Bytes) (h : wfNameB tn = true) :
    tn ≠ [] ∧ tn.all isLowerByte = true ∧ tn.length ≤ 500 := by
  simp only [wfNameB, Bool.and_eq_true, decide_eq_true_eq] at h
  tauto

/-- Simulation of the driver's chunk loop over a well-formed serialized
chunk sequence, followed by either the terminating zero tag or an
unrecognised tag: the chunks before the tag are applied exactly, nothing
after it is. -/
theorem chunkLoop_sim (cs : List Chunk) :
    ∀ (fuel baseIdx : Nat) (benv : Nat → BaseEnv) (db_dir : Bytes)
      (st : ReplState) (tag : Nat) (restF : Bytes),
      totalLen st < fuel →
      wfChunksB cs = true →
      (∀ i, benv i = happyBase) →
      st.buf ++ st.stream = serializeChunks cs ++ tag :: restF →
      (tag = 0 →
        ∃ fs' t u, t ++ u = restF ∧
          chunkLoop fuel benv baseIdx db_dir st =
            .done ⟨fs', u, tag :: t, st.consumed ++ serializeChunks cs⟩ t ∧
          fsEq fs' (applyChunks db_dir st.fs cs) ∧
          (restF.length + 1 ≤ REASONABLE_CHANGESET_SIZE → t = restF ∧ u = [])) ∧
      (tag ≠ 0 → tag ≠ 1 → tag ≠ 2 →
        ∃ s st2, chunkLoop fuel benv baseIdx db_dir st = .fail (.network s) st2 ∧
          fsEq st2.fs (applyChunks db_dir st.fs cs)) := by
  induction cs with
  | nil =>
    intro fuel baseIdx benv db_dir st tag restF hfuel hwf hbenv hcat
    cases fuel with
    | zero => exact absurd hfuel (Nat.not_lt_zero _)
    | succ f =>
      simp only [serializeChunks, List.nil_append] at hcat
      obtain ⟨t0, u0, hbuf, hstream, htu⟩ :=
        ensureChunk_split st REASONABLE_CHANGESET_SIZE [tag] restF hcat
          (by simp [REASONABLE_CHANGESET_SIZE])
      have hens : ensureChunk st REASONABLE_CHANGESET_SIZE
          = ⟨st.fs, u0, tag :: t0, st.consumed⟩ :=
        ReplState.ext' _ _ rfl hstream (by simpa using hbuf) rfl
      constructor
      · intro htag
        subst htag
        refine ⟨st.fs, t0, u0, htu, ?_, fsEq_refl _, ?_⟩
        · simp only [chunkLoop, hens]
          rw [if_neg (by simp)]
          simp [serializeChunks]
        · intro hfit
          have hall := ensureChunk_all st REASONABLE_CHANGESET_SIZE
            (by rw [totalLen_eq, hcat]; simpa using hfit)
          have h3 := hall.1
          rw [hcat] at h3
          have h4 : (ensureChunk st REASONABLE_CHANGESET_SIZE).buf
              = 0 :: t0 := by simpa using hbuf
          rw [h4] at h3
          have ht0 : t0 = restF := by injection h3
          refine ⟨ht0, ?_⟩
          rw [← hstream, hall.2]
      · intro h0 h1 h2
        rcases hstr : F_unpack_string t0 with _ | ⟨tablename, cur⟩
        · refine ⟨"Unexpected end of changeset (3)",
            ⟨st.fs, u0, tag :: t0, st.consumed⟩, ?_, fsEq_refl _⟩
          simp only [chunkLoop, hens]
          rw [if_neg (by simp)]
          simp only [List.headD_cons, List.drop_one, List.tail_cons]
          rw [if_neg h0]
          simp only [hstr]
        · by_cases hemp : tablename = []
          · refine ⟨"Missing tablename in changeset",
              ⟨st.fs, u0, tag :: t0, st.consumed⟩, ?_, fsEq_refl _⟩
            simp only [chunkLoop, hens]
            rw [if_neg (by simp)]
            simp only [List.headD_cons, List.drop_one, List.tail_cons]
            rw [if_neg h0]
            simp only [hstr]
            simp [hemp]
          · by_cases hlow : tablename.all isLowerByte
            · by_cases hcur : cur = []
              · refine ⟨"Unexpected end of changeset (4)",
                  ⟨st.fs, u0, tag :: t0, st.consumed⟩, ?_, fsEq_refl _⟩
                simp only [chunkLoop, hens]
                rw [if_neg (by simp)]
                simp only [List.headD_cons, List.drop_one, List.tail_cons]
                rw [if_neg h0]
                simp only [hstr]
                simp [hemp, hlow, hcur]
              · refine ⟨"Unrecognised item type in changeset",
                  consumeTo ⟨st.fs, u0, tag :: t0, st.consumed⟩ cur, ?_, fsEq_refl _⟩
                simp only [chunkLoop, hens]
                rw [if_neg (by simp)]
                simp only [List.headD_cons, List.drop_one, List.tail_cons]
                rw [if_neg h0]
                simp only [hstr]
                simp [hemp, hlow, hcur, h1, h2]
            · refine ⟨"Invalid character in tablename in changeset",
                ⟨st.fs, u0, tag :: t0, st.consumed⟩, ?_, fsEq_refl _⟩
              simp only [chunkLoop, hens]
              rw [if_neg (by simp)]
              simp only [List.headD_cons, List.drop_one, List.tail_cons]
              rw [if_neg h0]
              simp only [hstr]
              simp [hemp, hlow]
  | cons c cs' ih =>
    intro fuel baseIdx benv db_dir st tag restF hfuel hwf hbenv hcat
    cases fuel with
    | zero => exact absurd hfuel (Nat.not_lt_zero _)
    | succ f =>
      have hwf2 : wfChunkB c = true ∧ wfChunksB cs' = true := by
        simp only [wfChunksB, List.all_cons, Bool.and_eq_true] at hwf
        exact ⟨hwf.1, hwf.2⟩
      obtain ⟨hwfc, hwfcs⟩ := hwf2
      have hbe := hbenv baseIdx
      cases c with
      | base tn letter content =>
        have hwfc2 : wfNameB tn = true ∧ (letter = 65 ∨ letter = 66)
            ∧ content.length < 2 ^ 64 := by
          simp only [wfChunkB, Bool.and_eq_true, decide_eq_true_eq] at hwfc
          tauto
        obtain ⟨hname, hletter, hclen⟩ := hwfc2
        obtain ⟨hnn, hlower, hlen500⟩ := wfNameB_spec tn hname
        have hlle : (1 :: (F_pack_string tn ++ letter :: F_pack_uint content.length)
            : Bytes).length ≤ REASONABLE_CHANGESET_SIZE := by
          have hps := F_pack_string_le tn hlen500
          have hpc := F_pack_uint_length_le_ten content.length hclen
          simp only [List.length_cons, List.length_append, REASONABLE_CHANGESET_SIZE]
          omega
        have hcat1 : st.buf ++ st.stream
            = (1 :: (F_pack_string tn ++ letter :: F_pack_uint content.length))
              ++ (content ++ (serializeChunks cs' ++ tag :: restF)) := by
          rw [hcat]
          simp [serializeChunks, serializeChunk, List.append_assoc]
        obtain ⟨t1, u1, hbuf1, hstream1, htu1⟩ :=
          ensureChunk_split st REASONABLE_CHANGESET_SIZE _ _ hcat1 hlle
        have hens : ensureChunk st REASONABLE_CHANGESET_SIZE
            = ⟨st.fs, u1,
               1 :: (F_pack_string tn
                 ++ (letter :: (F_pack_uint content.length ++ t1))), st.consumed⟩ :=
          ReplState.ext' _ _ rfl hstream1
            (by rw [hbuf1]; simp [List.append_assoc]) rfl
        have hconsT := consumeTo_split
            ⟨st.fs, u1,
              1 :: (F_pack_string tn
                ++ (letter :: (F_pack_uint content.length ++ t1))), st.consumed⟩
            (1 :: F_pack_string tn)
            (letter :: (F_pack_uint content.length ++ t1)) (by simp)
        have hPB := process_base_ok db_dir tn (benv baseIdx)
            ⟨st.fs, u1, letter :: (F_pack_uint content.length ++ t1),
              st.consumed ++ (1 :: F_pack_string tn)⟩
            letter content.length content t1 (serializeChunks cs' ++ tag :: restF)
            rfl (by simpa using htu1) rfl hletter
            (by rw [hbe]; rfl) (by rw [hbe]; rfl)
        obtain ⟨t2, u2, htu2, heq2⟩ := hPB
        have hstep : chunkLoop (f + 1) benv baseIdx db_dir st
            = chunkLoop f benv (baseIdx + 1) db_dir
                ⟨fsRename (fsSet st.fs (tmpPath db_dir tn) content)
                   (tmpPath db_dir tn) (basePath db_dir tn letter), u2, t2,
                 (st.consumed ++ (1 :: F_pack_string tn))
                   ++ (letter :: (F_pack_uint content.length ++ content))⟩ := by
          simp only [chunkLoop, hens]
          rw [if_neg (by simp)]
          simp only [List.headD_cons, List.drop_one, List.tail_cons]
          rw [if_neg (by decide)]
          simp only [F_unpack_pack_string]
          rw [if_neg hnn, if_neg (by simp [hlower]), if_neg (by simp)]
          simp only [hconsT]
          simp only [if_true]
          rw [heq2]
        have hih := ih f (baseIdx + 1) benv db_dir
            ⟨fsRename (fsSet st.fs (tmpPath db_dir tn) content)
               (tmpPath db_dir tn) (basePath db_dir tn letter), u2, t2,
             (st.consumed ++ (1 :: F_pack_string tn))
               ++ (letter :: (F_pack_uint content.length ++ content))⟩
            tag restF
            (by
              have hA := congrArg List.length hcat1
              have hB := congrArg List.length htu2
              simp only [List.length_append, List.length_cons] at hA hB
              simp only [totalLen] at hfuel ⊢
              omega)
            hwfcs hbenv (by simpa using htu2)
        have hconsEq :
            ((st.consumed ++ (1 :: F_pack_string tn))
               ++ (letter :: (F_pack_uint content.length ++ content)))
              ++ serializeChunks cs'
            = st.consumed
                ++ serializeChunks (Chunk.base tn letter content :: cs') := by
          simp [serializeChunks, serializeChunk, List.append_assoc]
        constructor
        · intro htag
          obtain ⟨fs', t, u, htu, heq, hfeq, hfit⟩ := hih.1 htag
          refine ⟨fs', t, u, htu, ?_, ?_, hfit⟩
          · rw [hstep, heq]
            rw [show ((st.consumed ++ (1 :: F_pack_string tn))
                ++ (letter :: (F_pack_uint content.length ++ content)))
                ++ serializeChunks cs'
              = st.consumed
                ++ serializeChunks (Chunk.base tn letter content :: cs')
              from hconsEq]
          · exact hfeq
        · intro h0 h1 h2
          obtain ⟨s, stE, heq, hfeq⟩ := hih.2 h0 h1 h2
          refine ⟨s, stE, ?_, ?_⟩
          · rw [hstep, heq]
          · exact hfeq
      | blocks tn bs pairs =>
        have hwfc2 : wfNameB tn = true ∧ bs < 2 ^ 32 ∧ wfPairsB bs pairs = true := by
          simp only [wfChunkB, Bool.and_eq_true, decide_eq_true_eq] at hwfc
          tauto
        obtain ⟨hname, hbs, hwfp⟩ := hwfc2
        obtain ⟨hnn, hlower, hlen500⟩ := wfNameB_spec tn hname
        have hlle : (2 :: (F_pack_string tn ++ F_pack_uint bs) : Bytes).length
            ≤ REASONABLE_CHANGESET_SIZE := by
          have hps := F_pack_string_le tn hlen500
          have hpc : (F_pack_uint bs).length ≤ 5 := by
            refine F_pack_uint_length_le bs 5 ?_ (by omega)
            have : (2 : Nat) ^ 32 ≤ 128 ^ 5 := by norm_num
            omega
          simp only [List.length_cons, List.length_append, REASONABLE_CHANGESET_SIZE]
          omega
        have hcat1 : st.buf ++ st.stream
            = (2 :: (F_pack_string tn ++ F_pack_uint bs))
              ++ (serializePairs pairs
                ++ (F_pack_uint 0 ++ (serializeChunks cs' ++ tag :: restF))) := by
          rw [hcat]
          simp [serializeChunks, serializeChunk, List.append_assoc]
        obtain ⟨t1, u1, hbuf1, hstream1, htu1⟩ :=
          ensureChunk_split st REASONABLE_CHANGESET_SIZE _ _ hcat1 hlle
        have hens : ensureChunk st REASONABLE_CHANGESET_SIZE
            = ⟨st.fs, u1,
               2 :: (F_pack_string tn ++ (F_pack_uint bs ++ t1)), st.consumed⟩ :=
          ReplState.ext' _ _ rfl hstream1
            (by rw [hbuf1]; simp [List.append_assoc]) rfl
        have hconsT := consumeTo_split
            ⟨st.fs, u1, 2 :: (F_pack_string tn ++ (F_pack_uint bs ++ t1)),
              st.consumed⟩
            (2 :: F_pack_string tn) (F_pack_uint bs ++ t1) (by simp)
        have hPBk := process_blocks_sim db_dir tn
            ⟨st.fs, u1, F_pack_uint bs ++ t1,
              st.consumed ++ (2 :: F_pack_string tn)⟩
            bs pairs t1 (serializeChunks cs' ++ tag :: restF)
            rfl (by simpa [List.append_assoc] using htu1) hwfp
        obtain ⟨fs_b, t2, u2, htu2, heq2, hfeq2⟩ := hPBk
        have hstep : chunkLoop (f + 1) benv baseIdx db_dir st
            = chunkLoop f benv baseIdx db_dir
                ⟨fs_b, u2, t2,
                 (st.consumed ++ (2 :: F_pack_string tn))
                   ++ (F_pack_uint bs
                     ++ (serializePairs pairs ++ F_pack_uint 0))⟩ := by
          simp only [chunkLoop, hens]
          rw [if_neg (by simp)]
          simp only [List.headD_cons, List.drop_one, List.tail_cons]
          rw [if_neg (by decide)]
          simp only [F_unpack_pack_string]
          rw [if_neg hnn, if_neg (by simp [hlower]),
            if_neg (by simp [F_pack_uint_ne_nil])]
          simp only [hconsT]
          simp only [if_true]
          rw [heq2]
          rw [if_neg (by decide)]
        have hih := ih f baseIdx benv db_dir
            ⟨fs_b, u2, t2,
             (st.consumed ++ (2 :: F_pack_string tn))
               ++ (F_pack_uint bs ++ (serializePairs pairs ++ F_pack_uint 0))⟩
            tag restF
            (by
              have hA := congrArg List.length hcat1
              have hB := congrArg List.length htu2
              simp only [List.length_append, List.length_cons] at hA hB
              simp only [totalLen] at hfuel ⊢
              omega)
            hwfcs hbenv (by simpa using htu2)
        have hconsEq :
            ((st.consumed ++ (2 :: F_pack_string tn))
               ++ (F_pack_uint bs ++ (serializePairs pairs ++ F_pack_uint 0)))
              ++ serializeChunks cs'
            = st.consumed ++ serializeChunks (Chunk.blocks tn bs pairs :: cs') := by
          simp [serializeChunks, serializeChunk, List.append_assoc]
        have hcongr : fsEq (applyChunks db_dir fs_b cs')
            (applyChunks db_dir
              (applyChunk db_dir st.fs (Chunk.blocks tn bs pairs)) cs') :=
          applyChunks_congr hfeq2 db_dir cs'
        constructor
        · intro htag
          obtain ⟨fs', t, u, htu, heq, hfeq, hfit⟩ := hih.1 htag
          refine ⟨fs', t, u, htu, ?_, ?_, hfit⟩
          · rw [hstep, heq]
            rw [show ((st.consumed ++ (2 :: F_pack_string tn))
                 ++ (F_pack_uint bs ++ (serializePairs pairs ++ F_pack_uint 0)))
                ++ serializeChunks cs'
              = st.consumed ++ serializeChunks (Chunk.blocks tn bs pairs :: cs')
              from hconsEq]
          · exact fsEq_trans hfeq hcongr
        · intro h0 h1 h2
          obtain ⟨s, stE, heq, hfeq⟩ := hih.2 h0 h1 h2
          refine ⟨s, stE, ?_, ?_⟩
          · rw [hstep, heq]
          · exact fsEq_trans hfeq hcongr

/-! ### Driver simulation -/

theorem F_unpack_pack_nil (n : Nat) :
    F_unpack_uint (F_pack_uint n) = some (n, []) := by
  simpa using F_unpack_pack n []

/-- The archival file name reported by `applyRest` is whatever the driver
decided before the chunk loop; nothing in the loop or footer changes or
removes it. -/
theorem applyRest_changes (benv : Nat → BaseEnv) (db_dir : Bytes) (endrev : Nat)
    (chg : Option Bytes) (cur : Bytes) (st : ReplState) :
    (applyRest benv db_dir endrev chg cur st).changes = chg := by
  simp only [applyRest]
  repeat' split
  all_goals rfl

/-- The outcome and final state of `applyRest` do not depend on the archival
file name. -/
theorem applyRest_chg_irrel (benv : Nat → BaseEnv) (db_dir : Bytes)
    (endrev : Nat) (chg chg' : Option Bytes) (cur : Bytes) (st : ReplState) :
    (applyRest benv db_dir endrev chg cur st).outcome
      = (applyRest benv db_dir endrev chg' cur st).outcome ∧
    (applyRest benv db_dir endrev chg cur st).state
      = (applyRest benv db_dir endrev chg' cur st).state := by
  simp only [applyRest]
  repeat' split
  all_goals exact ⟨rfl, rfl⟩

/-- Simulation of `applyRest` on a well-formed tail: chunk loop, footer
decode, footer check, junk check, final archive-and-clear. -/
theorem applyRest_sim (benv : Nat → BaseEnv) (db_dir : Bytes) (endrev : Nat)
    (chg : Option Bytes) (st : ReplState) (pre cur : Bytes) (cs : List Chunk)
    (req : Nat)
    (hpre : st.buf = pre ++ cur)
    (hcat : cur ++ st.stream = serializeChunks cs ++ 0 :: F_pack_uint req)
    (hwf : wfChunksB cs = true)
    (hbenv : ∀ i, benv i = happyBase)
    (hreq : req < 2 ^ 64) :
    (endrev ≤ req →
      ∃ fs', applyRest benv db_dir endrev chg cur st =
        ⟨.ok (F_pack_uint req),
         ⟨fs', [], [],
          (st.consumed ++ pre) ++ (serializeChunks cs ++ 0 :: F_pack_uint req)⟩,
         chg⟩ ∧
        fsEq fs' (applyChunks db_dir st.fs cs)) ∧
    (req < endrev →
      ∃ st2, applyRest benv db_dir endrev chg cur st =
        ⟨.error (.network "Required revision in changeset is earlier than end revision"),
         st2, chg⟩ ∧
        fsEq st2.fs (applyChunks db_dir st.fs cs)) := by
  have hcons := consumeTo_split st pre cur hpre
  have hsim := chunkLoop_sim cs
      (totalLen ⟨st.fs, st.stream, cur, st.consumed ++ pre⟩ + 1) 0 benv db_dir
      ⟨st.fs, st.stream, cur, st.consumed ++ pre⟩ 0 (F_pack_uint req)
      (Nat.lt_succ_self _) hwf hbenv (by simpa using hcat)
  obtain ⟨fs', t, u, htu, heq, hfeq, hfit⟩ := hsim.1 rfl
  have hfit2 : t = F_pack_uint req ∧ u = [] := by
    refine hfit ?_
    have h10 := F_pack_uint_length_le_ten req hreq
    simp only [REASONABLE_CHANGESET_SIZE]
    omega
  obtain ⟨ht, hu⟩ := hfit2
  subst ht hu
  have hconsF := consumeTo_split
      ⟨fs', [], (0 : Nat) :: F_pack_uint req,
        (st.consumed ++ pre) ++ serializeChunks cs⟩
      ((0 : Nat) :: F_pack_uint req) [] (by simp)
  constructor
  · intro hle
    refine ⟨fs', ?_, hfeq⟩
    simp only [applyRest, hcons, heq]
    simp only [F_unpack_pack_nil]
    rw [if_neg (by omega)]
    rw [if_neg (by simp)]
    rw [hconsF]
    congr 2
    simp [List.append_assoc]
  · intro hlt
    refine ⟨⟨fs', [], (0 : Nat) :: F_pack_uint req,
        (st.consumed ++ pre) ++ serializeChunks cs⟩, ?_, hfeq⟩
    simp only [applyRest, hcons, heq]
    simp only [F_unpack_pack_nil]
    rw [if_pos hlt]

/-- Unfolding of `apply_changeset_from_conn` past a well-formed header:
lock, magic, version, the two revisions and their ordering check, the
not-at-end check, then the archival-file decision, the revision guard, the
payload-kind check, and finally the chunk/footer stage. -/
theorem apply_unfold (env : Env) (valid : Bool) (db_dir : Bytes) (fs : FS)
    (s e kind : Nat) (body : Bytes)
    (hs : s < 2 ^ 64) (he : e < 2 ^ 64) (hlt : s < e)
    (hlock : env.lockOk = true) :
    ∃ t u, t ++ u = body ∧
      apply_changeset_from_conn env valid db_dir fs
        (CHANGES_MAGIC_STRING ++ F_pack_uint CHANGES_VERSION ++ F_pack_uint s
          ++ F_pack_uint e ++ kind :: body) =
      (let stw : ReplState := ⟨fs, u,
          CHANGES_MAGIC_STRING ++ (F_pack_uint CHANGES_VERSION
            ++ (F_pack_uint s ++ (F_pack_uint e ++ kind :: t))), []⟩
       let chg := if env.maxChangesets > 0 then some (changesName db_dir s)
                  else none
       if valid = true ∧ s ≠ env.currentRevision then
         ⟨.error (.network "Changeset supplied is for wrong revision number"),
          stw, chg⟩
       else if kind ≠ 0 then
         ⟨.error (.network ("Unsupported changeset type: " ++ Nat.repr kind)),
          stw, chg⟩
       else applyRest env.benv db_dir e chg t stw) := by
  have hlen12 : CHANGES_MAGIC_STRING.length = 12 := rfl
  have hlenV : (F_pack_uint CHANGES_VERSION).length = 1 := rfl
  have hlenS := F_pack_uint_length_le_ten s hs
  have hlenE := F_pack_uint_length_le_ten e he
  obtain ⟨t, u, hbuf, hstream, htu⟩ :=
    ensureChunk_split ⟨fs,
        CHANGES_MAGIC_STRING ++ F_pack_uint CHANGES_VERSION ++ F_pack_uint s
          ++ F_pack_uint e ++ kind :: body, [], []⟩
      REASONABLE_CHANGESET_SIZE
      (CHANGES_MAGIC_STRING ++ (F_pack_uint CHANGES_VERSION
        ++ (F_pack_uint s ++ (F_pack_uint e ++ [kind])))) body
      (by simp [List.append_assoc])
      (by
        simp only [List.length_append, List.length_cons, List.length_nil,
          hlen12, hlenV, REASONABLE_CHANGESET_SIZE]
        omega)
  have hens : ensureChunk ⟨fs,
        CHANGES_MAGIC_STRING ++ F_pack_uint CHANGES_VERSION ++ F_pack_uint s
          ++ F_pack_uint e ++ kind :: body, [], []⟩ REASONABLE_CHANGESET_SIZE
      = ⟨fs, u, CHANGES_MAGIC_STRING ++ (F_pack_uint CHANGES_VERSION
          ++ (F_pack_uint s ++ (F_pack_uint e ++ kind :: t))), []⟩ :=
    ReplState.ext' _ _ rfl hstream (by rw [hbuf]; simp [List.append_assoc]) rfl
  have hpref : CHANGES_MAGIC_STRING.isPrefixOf
      (CHANGES_MAGIC_STRING ++ (F_pack_uint CHANGES_VERSION
        ++ (F_pack_uint s ++ (F_pack_uint e ++ kind :: t)))) = true := by
    rw [List.isPrefixOf_iff_prefix]
    exact List.prefix_append _ _
  refine ⟨t, u, htu, ?_⟩
  simp only [apply_changeset_from_conn, hens]
  rw [if_neg (by simp [hlock])]
  rw [if_neg (by simp [hpref])]
  rw [List.drop_left' rfl]
  simp only [F_unpack_pack]
  rw [if_neg (by simp [CHANGES_VERSION])]
  rw [if_neg (by omega)]
  rw [if_neg (by simp)]
  simp only [List.headD_cons, List.drop_one, List.tail_cons]

/-- Unfolding of `apply_changeset_from_conn` on a header whose end revision
is not later than its start revision: the apply stops with the
revision-ordering protocol error before the archival decision, the guard,
and the chunk loop. -/
theorem apply_unfold_revorder (env : Env) (valid : Bool) (db_dir : Bytes)
    (fs : FS) (s e kind : Nat) (body : Bytes)
    (hs : s < 2 ^ 64) (he : e < 2 ^ 64) (hle : e ≤ s)
    (hlock : env.lockOk = true) :
    ∃ st1 : ReplState,
      apply_changeset_from_conn env valid db_dir fs
        (CHANGES_MAGIC_STRING ++ F_pack_uint CHANGES_VERSION ++ F_pack_uint s
          ++ F_pack_uint e ++ kind :: body) =
      ⟨.error (.network "End revision in changeset is not later than start revision"),
       st1, none⟩ ∧ st1.fs = fs := by
  have hlen12 : CHANGES_MAGIC_STRING.length = 12 := rfl
  have hlenV : (F_pack_uint CHANGES_VERSION).length = 1 := rfl
  have hlenS := F_pack_uint_length_le_ten s hs
  have hlenE := F_pack_uint_length_le_ten e he
  obtain ⟨t, u, hbuf, hstream, htu⟩ :=
    ensureChunk_split ⟨fs,
        CHANGES_MAGIC_STRING ++ F_pack_uint CHANGES_VERSION ++ F_pack_uint s
          ++ F_pack_uint e ++ kind :: body, [], []⟩
      REASONABLE_CHANGESET_SIZE
      (CHANGES_MAGIC_STRING ++ (F_pack_uint CHANGES_VERSION
        ++ (F_pack_uint s ++ (F_pack_uint e ++ [kind])))) body
      (by simp [List.append_assoc])
      (by
        simp only [List.length_append, List.length_cons, List.length_nil,
          hlen12, hlenV, REASONABLE_CHANGESET_SIZE]
        omega)
  have hens : ensureChunk ⟨fs,
        CHANGES_MAGIC_STRING ++ F_pack_uint CHANGES_VERSION ++ F_pack_uint s
          ++ F_pack_uint e ++ kind :: body, [], []⟩ REASONABLE_CHANGESET_SIZE
      = ⟨fs, u, CHANGES_MAGIC_STRING ++ (F_pack_uint CHANGES_VERSION
          ++ (F_pack_uint s ++ (F_pack_uint e ++ kind :: t))), []⟩ :=
    ReplState.ext' _ _ rfl hstream (by rw [hbuf]; simp [List.append_assoc]) rfl
  have hpref : CHANGES_MAGIC_STRING.isPrefixOf
      (CHANGES_MAGIC_STRING ++ (F_pack_uint CHANGES_VERSION
        ++ (F_pack_uint s ++ (F_pack_uint e ++ kind :: t)))) = true := by
    rw [List.isPrefixOf_iff_prefix]
    exact List.prefix_append _ _
  refine ⟨⟨fs, u, CHANGES_MAGIC_STRING ++ (F_pack_uint CHANGES_VERSION
      ++ (F_pack_uint s ++ (F_pack_uint e ++ kind :: t))), []⟩, ?_, rfl⟩
  simp only [apply_changeset_from_conn, hens]
  rw [if_neg (by simp [hlock])]
  rw [if_neg (by simp [hpref])]
  rw [List.drop_left' rfl]
  simp only [F_unpack_pack]
  rw [if_neg (by simp [CHANGES_VERSION])]
  rw [if_pos hle]

/-! ### Claim theorems -/

/-- C1 (counterexample): the claim says that when the rename fails and the
recovery `unlink` of the temporary file *succeeds*, the chunk application is
treated as having succeeded.  On the code the opposite holds: `unlink`
returning 0 means the temporary file still existed, so the rename genuinely
failed, and the code throws.  Concretely: empty filesystem, base chunk
`letter 'A', size 3, bytes "xyz"`, rename reported failing with errno 5; the
temporary file exists (it was just written), the unlink succeeds and removes
it, and the result is the `DatabaseError` carrying errno 5 — not success. -/
theorem flint_C1_counterexample :
    process_changeset_chunk_base (strBytes "db") (strBytes "record")
        ⟨none, some 5, false, none⟩
        ⟨[], [], 65 :: (F_pack_uint 3 ++ strBytes "xyz"), []⟩
      = .fail (.database "Couldn't update base file record.baseA" 5)
          ⟨[], [], [], 65 :: (F_pack_uint 3 ++ strBytes "xyz")⟩ ∧
    (fsGet (fsSet ([] : FS) (tmpPath (strBytes "db") (strBytes "record"))
        (strBytes "xyz")) (tmpPath (strBytes "db") (strBytes "record"))).isSome
      = true := by
  decide

/-- C1 (amended): for every base-file chunk whose rename of the temporary
file onto `<table>.base<letter>` fails, the applier attempts to unlink the
temporary file; if that unlink fails specifically because the file no longer
exists (`ENOENT`), the chunk application is treated as having succeeded and
no error is raised; if the unlink *succeeds* or fails with any other errno,
a terminal storage error carrying the original rename error code is
raised. -/
theorem flint_C1_amended (db_dir tn : Bytes) (benv : BaseEnv)
    (st : ReplState) (letter sz e : Nat) (content b0 rest : Bytes)
    (hbl : st.buf = letter :: (F_pack_uint sz ++ b0))
    (hcat : b0 ++ st.stream = content ++ rest)
    (hsz : content.length = sz)
    (hletter : letter = 65 ∨ letter = 66)
    (hopen : benv.openErr = none)
    (hrename : benv.renameErr = some e) :
    (benv.unlinkErr = some ENOENT →
      ∃ st', process_changeset_chunk_base db_dir tn benv st = .ok st') ∧
    (benv.unlinkErr = none → benv.renameDone = true →
      ∃ st', process_changeset_chunk_base db_dir tn benv st = .ok st' ∧
        fsGet st'.fs (basePath db_dir tn letter) = some content) ∧
    (benv.unlinkErr = none → benv.renameDone = false →
      ∃ st', process_changeset_chunk_base db_dir tn benv st =
          .fail (.database ("Couldn't update base file " ++ bytesToString tn
            ++ ".base" ++ bytesToString [letter]) e) st' ∧
        fsGet st'.fs (tmpPath db_dir tn) = none) ∧
    (∀ e2, benv.unlinkErr = some e2 → e2 ≠ ENOENT →
      ∃ st', process_changeset_chunk_base db_dir tn benv st =
          .fail (.database ("Couldn't update base file " ++ bytesToString tn
            ++ ".base" ++ bytesToString [letter]) e) st') :=
  process_base_renameFail db_dir tn benv st letter sz e content b0 rest
    hbl hcat hsz hletter hopen hrename

/-- Witness for C1 (amended): at a concrete input where the rename fails
with errno 5 and the unlink takes its outcome from the filesystem, the
unlink succeeds (the temporary file was just written) and the code throws
the storage error carrying errno 5, leaving no temporary file behind. -/
theorem flint_C1_amended_witness :
    ∃ st', process_changeset_chunk_base (strBytes "db") (strBytes "record")
        ⟨none, some 5, false, none⟩
        ⟨[], [], 65 :: (F_pack_uint 3 ++ strBytes "xyz"), []⟩ =
      .fail (.database ("Couldn't update base file "
          ++ bytesToString (strBytes "record")
          ++ ".base" ++ bytesToString [65]) 5) st' ∧
      fsGet st'.fs (tmpPath (strBytes "db") (strBytes "record")) = none :=
  (flint_C1_amended (strBytes "db") (strBytes "record")
      ⟨none, some 5, false, none⟩
      ⟨[], [], 65 :: (F_pack_uint 3 ++ strBytes "xyz"), []⟩
      65 3 5 (strBytes "xyz") (strBytes "xyz") []
      rfl (by decide) (by decide) (by decide) rfl rfl).2.2.1 rfl rfl

/-- C2 (counterexample): trusted apply, stream whose payload-kind byte is
the unsupported value 1 and whose start revision 5 differs from the
replica's on-disk revision 4.  The claim says the reported error is the
unsupported-payload-kind error; the code checks the revision first and
reports the revision mismatch. -/
theorem flint_C2_counterexample :
    (apply_changeset_from_conn ⟨1, 4, true, fun _ => happyBase⟩ true
        (strBytes "db") [] (serializeChangeset 5 6 1 [] 6)).outcome
      = .error (.network "Changeset supplied is for wrong revision number") ∧
    (apply_changeset_from_conn ⟨1, 4, true, fun _ => happyBase⟩ true
        (strBytes "db") [] (serializeChangeset 5 6 1 [] 6)).outcome
      ≠ .error (.network ("Unsupported changeset type: " ++ Nat.repr 1)) := by
  decide

/-- C2 (amended): the driver validates the magic marker, format version and
revision pair before the revision guard, but the payload-kind tag is
checked only *after* the guard; for an apply with `trusted = true` whose
stream carries an unsupported payload-kind value and whose start revision
differs from the replica's on-disk revision, the error reported is the
revision-mismatch error; the unsupported-payload-kind error is reported
when the guard passes (or is skipped). -/
theorem flint_C2_amended (env : Env) (valid : Bool) (db_dir : Bytes) (fs : FS)
    (s e kind : Nat) (body : Bytes)
    (hs : s < 2 ^ 64) (he : e < 2 ^ 64) (hlt : s < e)
    (hlock : env.lockOk = true) :
    (valid = true → s ≠ env.currentRevision →
      (apply_changeset_from_conn env valid db_dir fs
        (CHANGES_MAGIC_STRING ++ F_pack_uint CHANGES_VERSION ++ F_pack_uint s
          ++ F_pack_uint e ++ kind :: body)).outcome
        = .error (.network "Changeset supplied is for wrong revision number")) ∧
    ((valid = true → s = env.currentRevision) → kind ≠ 0 →
      (apply_changeset_from_conn env valid db_dir fs
        (CHANGES_MAGIC_STRING ++ F_pack_uint CHANGES_VERSION ++ F_pack_uint s
          ++ F_pack_uint e ++ kind :: body)).outcome
        = .error (.network ("Unsupported changeset type: " ++ Nat.repr kind))) := by
  obtain ⟨t, u, htu, heq⟩ := apply_unfold env valid db_dir fs s e kind body hs he hlt hlock
  constructor
  · intro hv hne
    simp only [heq]
    rw [if_pos ⟨hv, hne⟩]
  · intro hv hkind
    simp only [heq]
    rw [if_neg (by rintro ⟨hv', hne⟩; exact hne (hv hv'))]
    rw [if_pos hkind]

/-- Witness for C2 (amended): concrete trusted apply with payload-kind 1
and mismatched start revision reports the revision-mismatch error. -/
theorem flint_C2_amended_witness :
    (apply_changeset_from_conn ⟨0, 4, true, fun _ => happyBase⟩ true
        (strBytes "db") []
        (CHANGES_MAGIC_STRING ++ F_pack_uint CHANGES_VERSION ++ F_pack_uint 5
          ++ F_pack_uint 6 ++ 1 :: [0, 6])).outcome
      = .error (.network "Changeset supplied is for wrong revision number") :=
  (flint_C2_amended ⟨0, 4, true, fun _ => happyBase⟩ true (strBytes "db") []
      5 6 1 [0, 6] (by decide) (by decide) (by decide) rfl).1 rfl (by decide)

/-- C3: a block chunk that decodes as `block_size` followed by `(tag,
bytes)` pairs with index `tag - 1`, terminated by `tag = 0`, writes the
blocks in stream order, each at byte offset `index * block_size` of the
table's data file; hence for every index occurring in the sequence the final
content at that index's byte range equals the bytes of the last pair with
that index. -/
theorem flint_C3_blocks (db_dir tn : Bytes) (st : ReplState) (bs : Nat)
    (pairs : List (Nat × Bytes)) (b0 rest : Bytes)
    (hbl : st.buf = F_pack_uint bs ++ b0)
    (hcat : b0 ++ st.stream = serializePairs pairs ++ (F_pack_uint 0 ++ rest))
    (hwf : wfPairsB bs pairs = true) :
    ∃ fs' t u, t ++ u = rest ∧
      process_changeset_chunk_blocks db_dir tn st =
        .ok ⟨fs', u, t,
          st.consumed ++ (F_pack_uint bs ++ (serializePairs pairs ++ F_pack_uint 0))⟩ ∧
      fsGet fs' (dbPath db_dir tn)
        = some (applyBlocks bs pairs (fsGetD st.fs (dbPath db_dir tn) [])) ∧
      ∀ i b, lastWrite i pairs = some b →
        blockRead (applyBlocks bs pairs (fsGetD st.fs (dbPath db_dir tn) []))
          (bs * i) bs = b := by
  obtain ⟨fs', t, u, htu, heq, hfeq⟩ :=
    process_blocks_sim db_dir tn st bs pairs b0 rest hbl hcat hwf
  refine ⟨fs', t, u, htu, heq, ?_, ?_⟩
  · have h1 := hfeq (dbPath db_dir tn)
    rw [h1]
    simp only [applyChunk]
    exact fsGet_fsSet_self _ _ _
  · intro i b hlast
    refine applyBlocks_lastWrite bs pairs _ i b ?_ hlast
    intro p hp
    simp only [wfPairsB, List.all_eq_true] at hwf
    have h2 := hwf p hp
    simp only [Bool.and_eq_true, decide_eq_true_eq] at h2
    exact h2.1

/-- Witness for C3: repeated index 0 written as "aaaa" then "cccc" with an
interleaved write to index 1 ends up holding "cccc", the last occurrence. -/
theorem flint_C3_blocks_witness :
    blockRead (applyBlocks 4
        [(0, strBytes "aaaa"), (1, strBytes "bbbb"), (0, strBytes "cccc")]
        (fsGetD [] (dbPath (strBytes "db") (strBytes "record")) []))
      (4 * 0) 4 = strBytes "cccc" := by
  obtain ⟨fs', t, u, htu, heq, hget, hlast⟩ :=
    flint_C3_blocks (strBytes "db") (strBytes "record")
      ⟨[], serializePairs
          [(0, strBytes "aaaa"), (1, strBytes "bbbb"), (0, strBytes "cccc")]
        ++ (F_pack_uint 0 ++ []), F_pack_uint 4, []⟩
      4 [(0, strBytes "aaaa"), (1, strBytes "bbbb"), (0, strBytes "cccc")] [] []
      (by decide) (by decide) (by decide)
  exact hlast 0 (strBytes "cccc") (by decide)

/-- C4: with archival retention count 0 or negative, no archival changeset
file is created for any apply, successful or failed, and disabling archival
changes no other observable behaviour (outcome and final state are
identical for any two retention counts); with retention count positive, on
a successful apply of a well-formed changeset the archival file exists and
its content — the consumed-byte trace — is exactly the bytes consumed from
the transport, from the magic marker through the required-revision footer
inclusive (the whole serialized changeset, with nothing left unread). -/
theorem flint_C4_archival (m m' : Int) (r : Nat) (lk : Bool)
    (be : Nat → BaseEnv) (valid : Bool) (db_dir : Bytes) (fs : FS)
    (stream : Bytes) (s e req : Nat) (cs : List Chunk)
    (hm : m ≤ 0) (hm' : 0 < m')
    (hs : s < 2 ^ 64) (he : e < 2 ^ 64) (hreq : req < 2 ^ 64)
    (hlt : s < e) (hle : e ≤ req)
    (hwf : wfChunksB cs = true)
    (hbe : ∀ i, be i = happyBase)
    (hv : valid = true → s = r) :
    ((apply_changeset_from_conn ⟨m, r, lk, be⟩ valid db_dir fs stream).changes
      = none) ∧
    ((apply_changeset_from_conn ⟨m, r, lk, be⟩ valid db_dir fs stream).outcome
       = (apply_changeset_from_conn ⟨m', r, lk, be⟩ valid db_dir fs stream).outcome
     ∧ (apply_changeset_from_conn ⟨m, r, lk, be⟩ valid db_dir fs stream).state
       = (apply_changeset_from_conn ⟨m', r, lk, be⟩ valid db_dir fs stream).state) ∧
    (∃ fs', apply_changeset_from_conn ⟨m', r, true, be⟩ valid db_dir fs
        (serializeChangeset s e 0 cs req)
      = ⟨.ok (F_pack_uint req),
         ⟨fs', [], [], serializeChangeset s e 0 cs req⟩,
         some (changesName db_dir s)⟩) := by
  refine ⟨?_, ?_, ?_⟩
  · have hnm : ¬((0 : Int) < m) := by omega
    simp only [apply_changeset_from_conn]
    dsimp only
    simp only [gt_iff_lt, hnm, if_false]
    repeat' split
    all_goals first
      | rfl
      | exact applyRest_changes _ _ _ _ _ _
  · simp only [apply_changeset_from_conn]
    dsimp only
    constructor
    all_goals
      repeat' split
      all_goals first
        | rfl
        | exact (applyRest_chg_irrel _ _ _ _ _ _ _).1
        | exact (applyRest_chg_irrel _ _ _ _ _ _ _).2
  · obtain ⟨t, u, htu, heq⟩ := apply_unfold ⟨m', r, true, be⟩ valid db_dir fs
      s e 0 (serializeChunks cs ++ 0 :: F_pack_uint req) hs he hlt rfl
    have hsim := applyRest_sim be db_dir e
        (some (changesName db_dir s))
        ⟨fs, u, CHANGES_MAGIC_STRING ++ (F_pack_uint CHANGES_VERSION
          ++ (F_pack_uint s ++ (F_pack_uint e ++ 0 :: t))), []⟩
        (CHANGES_MAGIC_STRING ++ (F_pack_uint CHANGES_VERSION
          ++ (F_pack_uint s ++ (F_pack_uint e ++ [0])))) t cs req
        (by simp [List.append_assoc]) (by simpa using htu) hwf hbe hreq
    obtain ⟨fs', hres, hfeq⟩ := hsim.1 hle
    refine ⟨fs', ?_⟩
    show apply_changeset_from_conn ⟨m', r, true, be⟩ valid db_dir fs
        (CHANGES_MAGIC_STRING ++ F_pack_uint CHANGES_VERSION ++ F_pack_uint s
          ++ F_pack_uint e ++ 0 :: (serializeChunks cs ++ 0 :: F_pack_uint req)) = _
    rw [heq]
    simp only []
    rw [if_neg (by rintro ⟨hv', hne⟩; exact hne (hv hv'))]
    rw [if_neg (by simp)]
    rw [if_pos (by simpa using hm')]
    rw [hres]
    congr 2
    simp [serializeChangeset, List.append_assoc]

/-- Witness for C4: retention count `-1` versus `2`, concrete empty-chunk
changeset: no archival file when disabled, identical outcome and state for
both counts, and with count `2` the successful apply archives exactly the
whole stream. -/
theorem flint_C4_archival_witness :
    ((apply_changeset_from_conn ⟨-1, 5, true, fun _ => happyBase⟩ false
        (strBytes "db") [] (serializeChangeset 5 6 0 [] 6)).changes = none) ∧
    ((apply_changeset_from_conn ⟨-1, 5, true, fun _ => happyBase⟩ false
        (strBytes "db") [] (serializeChangeset 5 6 0 [] 6)).outcome
       = (apply_changeset_from_conn ⟨2, 5, true, fun _ => happyBase⟩ false
        (strBytes "db") [] (serializeChangeset 5 6 0 [] 6)).outcome
     ∧ (apply_changeset_from_conn ⟨-1, 5, true, fun _ => happyBase⟩ false
        (strBytes "db") [] (serializeChangeset 5 6 0 [] 6)).state
       = (apply_changeset_from_conn ⟨2, 5, true, fun _ => happyBase⟩ false
        (strBytes "db") [] (serializeChangeset 5 6 0 [] 6)).state) ∧
    (∃ fs', apply_changeset_from_conn ⟨2, 5, true, fun _ => happyBase⟩ false
        (strBytes "db") [] (serializeChangeset 5 6 0 [] 6)
      = ⟨.ok (F_pack_uint 6),
         ⟨fs', [], [], serializeChangeset 5 6 0 [] 6⟩,
         some (changesName (strBytes "db") 5)⟩) :=
  flint_C4_archival (-1) 2 5 true (fun _ => happyBase) false (strBytes "db")
    [] (serializeChangeset 5 6 0 [] 6) 5 6 6 []
    (by decide) (by decide) (by decide) (by decide) (by decide)
    (by decide) (by decide) (by decide) (fun _ => rfl) (by simp)

/-- C5: for every apply call on a serialized changeset that returns
successfully, the decoded revisions satisfy `end > start` and
`required ≥ end`; a header whose end revision is not later than its start
revision, or a footer whose required revision is earlier than the end
revision, makes the apply fail with the corresponding protocol error. -/
theorem flint_C5_revisions (env : Env) (valid : Bool) (db_dir : Bytes)
    (fs : FS) (s e req : Nat) (cs : List Chunk) (ret : Bytes)
    (hs : s < 2 ^ 64) (he : e < 2 ^ 64) (hreq : req < 2 ^ 64)
    (hwf : wfChunksB cs = true)
    (hbe : ∀ i, env.benv i = happyBase)
    (hlock : env.lockOk = true)
    (hv : valid = true → s = env.currentRevision) :
    ((apply_changeset_from_conn env valid db_dir fs
        (serializeChangeset s e 0 cs req)).outcome = .ok ret →
      s < e ∧ e ≤ req ∧ ret = F_pack_uint req) ∧
    (e ≤ s →
      (apply_changeset_from_conn env valid db_dir fs
        (serializeChangeset s e 0 cs req)).outcome
      = .error (.network "End revision in changeset is not later than start revision")) ∧
    (s < e → req < e →
      (apply_changeset_from_conn env valid db_dir fs
        (serializeChangeset s e 0 cs req)).outcome
      = .error (.network "Required revision in changeset is earlier than end revision")) := by
  have hrev : ∀ (hle : e ≤ s),
      (apply_changeset_from_conn env valid db_dir fs
        (serializeChangeset s e 0 cs req)).outcome
      = .error (.network "End revision in changeset is not later than start revision") := by
    intro hle
    obtain ⟨st1, heq, _⟩ := apply_unfold_revorder env valid db_dir fs s e 0
      (serializeChunks cs ++ 0 :: F_pack_uint req) hs he hle hlock
    show (apply_changeset_from_conn env valid db_dir fs
        (CHANGES_MAGIC_STRING ++ F_pack_uint CHANGES_VERSION ++ F_pack_uint s
          ++ F_pack_uint e ++ 0 :: (serializeChunks cs ++ 0 :: F_pack_uint req))).outcome = _
    rw [heq]
  have hmain : ∀ (hlt : s < e),
      ∃ res : ApplyResult,
        apply_changeset_from_conn env valid db_dir fs
          (serializeChangeset s e 0 cs req) = res ∧
        ((e ≤ req → res.outcome = .ok (F_pack_uint req)) ∧
         (req < e → res.outcome
           = .error (.network "Required revision in changeset is earlier than end revision"))) := by
    intro hlt
    obtain ⟨t, u, htu, heq⟩ := apply_unfold env valid db_dir fs s e 0
      (serializeChunks cs ++ 0 :: F_pack_uint req) hs he hlt hlock
    have hsim := applyRest_sim env.benv db_dir e
        (if env.maxChangesets > 0 then some (changesName db_dir s) else none)
        ⟨fs, u, CHANGES_MAGIC_STRING ++ (F_pack_uint CHANGES_VERSION
          ++ (F_pack_uint s ++ (F_pack_uint e ++ 0 :: t))), []⟩
        (CHANGES_MAGIC_STRING ++ (F_pack_uint CHANGES_VERSION
          ++ (F_pack_uint s ++ (F_pack_uint e ++ [0])))) t cs req
        (by simp [List.append_assoc]) (by simpa using htu) hwf hbe hreq
    have heq2 : apply_changeset_from_conn env valid db_dir fs
        (serializeChangeset s e 0 cs req)
      = applyRest env.benv db_dir e
          (if env.maxChangesets > 0 then some (changesName db_dir s) else none)
          t ⟨fs, u, CHANGES_MAGIC_STRING ++ (F_pack_uint CHANGES_VERSION
            ++ (F_pack_uint s ++ (F_pack_uint e ++ 0 :: t))), []⟩ := by
      show apply_changeset_from_conn env valid db_dir fs
          (CHANGES_MAGIC_STRING ++ F_pack_uint CHANGES_VERSION ++ F_pack_uint s
            ++ F_pack_uint e ++ 0 :: (serializeChunks cs ++ 0 :: F_pack_uint req)) = _
      rw [heq]
      simp only []
      rw [if_neg (by rintro ⟨hv', hne⟩; exact hne (hv hv'))]
      rw [if_neg (by simp)]
    refine ⟨_, heq2, ?_, ?_⟩
    · intro hle
      obtain ⟨fs', hres, _⟩ := hsim.1 hle
      rw [hres]
    · intro hre
      obtain ⟨st2, hres, _⟩ := hsim.2 hre
      rw [hres]
  refine ⟨?_, fun hle => hrev hle, ?_⟩
  · intro hok
    by_cases hse : s < e
    · obtain ⟨res, heqr, hok', herr⟩ := hmain hse
      by_cases hre : req < e
      · rw [heqr, herr hre] at hok
        cases hok
      · have hle : e ≤ req := by omega
        rw [heqr, hok' hle] at hok
        refine ⟨hse, hle, ?_⟩
        injection hok with h
        exact h.symm
    · have hle : e ≤ s := by omega
      rw [hrev hle] at hok
      cases hok
  · intro hse hre
    obtain ⟨res, heqr, _, herr⟩ := hmain hse
    rw [heqr, herr hre]

/-- Witness for C5: concrete successful apply returns the packed required
revision with the monotone revisions, and a concrete bad footer fails. -/
theorem flint_C5_revisions_witness :
    ((apply_changeset_from_conn ⟨0, 0, true, fun _ => happyBase⟩ false
        (strBytes "db") [] (serializeChangeset 5 6 0 [] 7)).outcome
      = .ok (F_pack_uint 7) →
      (5 : Nat) < 6 ∧ (6 : Nat) ≤ 7 ∧ F_pack_uint 7 = F_pack_uint 7) ∧
    ((6 : Nat) ≤ 5 →
      (apply_changeset_from_conn ⟨0, 0, true, fun _ => happyBase⟩ false
        (strBytes "db") [] (serializeChangeset 5 6 0 [] 7)).outcome
      = .error (.network "End revision in changeset is not later than start revision")) ∧
    ((5 : Nat) < 6 → (7 : Nat) < 6 →
      (apply_changeset_from_conn ⟨0, 0, true, fun _ => happyBase⟩ false
        (strBytes "db") [] (serializeChangeset 5 6 0 [] 7)).outcome
      = .error (.network "Required revision in changeset is earlier than end revision")) := by
  have h := flint_C5_revisions ⟨0, 0, true, fun _ => happyBase⟩ false
    (strBytes "db") [] 5 6 7 [] (F_pack_uint 7)
    (by decide) (by decide) (by decide) (by decide) (fun _ => rfl) rfl (by simp)
  exact ⟨fun hq => h.1 hq, h.2.1, h.2.2⟩

/-- C6: with `trusted = true` and an on-disk revision different from the
changeset's start revision, the apply fails with the revision-mismatch
error before any chunk is processed (the filesystem is untouched); with
`trusted = false` the revision comparison is skipped entirely — the result
of the apply does not depend on the replica's recorded revision at all. -/
theorem flint_C6_trusted_guard (m : Int) (r r' : Nat) (lk : Bool)
    (be : Nat → BaseEnv) (db_dir : Bytes) (fs : FS)
    (s e kind : Nat) (body w : Bytes)
    (hs : s < 2 ^ 64) (he : e < 2 ^ 64) (hlt : s < e) :
    (s ≠ r →
      (apply_changeset_from_conn ⟨m, r, true, be⟩ true db_dir fs
        (CHANGES_MAGIC_STRING ++ F_pack_uint CHANGES_VERSION ++ F_pack_uint s
          ++ F_pack_uint e ++ kind :: body)).outcome
        = .error (.network "Changeset supplied is for wrong revision number") ∧
      (apply_changeset_from_conn ⟨m, r, true, be⟩ true db_dir fs
        (CHANGES_MAGIC_STRING ++ F_pack_uint CHANGES_VERSION ++ F_pack_uint s
          ++ F_pack_uint e ++ kind :: body)).state.fs = fs) ∧
    (apply_changeset_from_conn ⟨m, r, lk, be⟩ false db_dir fs w
      = apply_changeset_from_conn ⟨m, r', lk, be⟩ false db_dir fs w) := by
  constructor
  · intro hne
    obtain ⟨t, u, htu, heq⟩ := apply_unfold ⟨m, r, true, be⟩ true db_dir fs
      s e kind body hs he hlt rfl
    constructor
    · simp only [heq]
      rw [if_pos ⟨trivial, hne⟩]
    · simp only [heq]
      rw [if_pos ⟨trivial, hne⟩]
  · simp only [apply_changeset_from_conn]
    dsimp only
    repeat' split
    all_goals first
      | rfl
      | simp_all

/-- Witness for C6: concrete mismatch (start revision 5, on-disk revision
4) fails before touching the filesystem; with the trust flag off the result
is the same whether the recorded revision is 4 or 9. -/
theorem flint_C6_trusted_guard_witness :
    ((5 : Nat) ≠ 4 →
      (apply_changeset_from_conn ⟨0, 4, true, fun _ => happyBase⟩ true
        (strBytes "db") [(strBytes "f", strBytes "v")]
        (CHANGES_MAGIC_STRING ++ F_pack_uint CHANGES_VERSION ++ F_pack_uint 5
          ++ F_pack_uint 6 ++ 0 :: [0, 6])).outcome
        = .error (.network "Changeset supplied is for wrong revision number") ∧
      (apply_changeset_from_conn ⟨0, 4, true, fun _ => happyBase⟩ true
        (strBytes "db") [(strBytes "f", strBytes "v")]
        (CHANGES_MAGIC_STRING ++ F_pack_uint CHANGES_VERSION ++ F_pack_uint 5
          ++ F_pack_uint 6 ++ 0 :: [0, 6])).state.fs
        = [(strBytes "f", strBytes "v")]) ∧
    (apply_changeset_from_conn ⟨0, 4, true, fun _ => happyBase⟩ false
        (strBytes "db") [(strBytes "f", strBytes "v")] [9, 9, 9]
      = apply_changeset_from_conn ⟨0, 9, true, fun _ => happyBase⟩ false
        (strBytes "db") [(strBytes "f", strBytes "v")] [9, 9, 9]) :=
  flint_C6_trusted_guard 0 4 9 true (fun _ => happyBase) (strBytes "db")
    [(strBytes "f", strBytes "v")] 5 6 0 [0, 6] [9, 9, 9]
    (by decide) (by decide) (by decide)

/-- C7: a base-file chunk with a generation letter other than `'A'`/`'B'`
fails with a terminal error; with fewer than the declared `byte_size` bytes
ultimately available it fails with a terminal error (before any write to
the final path); otherwise exactly the `byte_size` streamed bytes are
written, via the temporary file, onto `<table>.base<letter>` by the rename,
the temporary file is gone afterwards, and no other path changes — exactly
one base file is replaced per call, and the final path only ever receives
the complete content. -/
theorem flint_C7_base_chunk (db_dir tn : Bytes) (benv : BaseEnv)
    (st : ReplState) (letter sz : Nat) (b0 : Bytes)
    (hbl : st.buf = letter :: (F_pack_uint sz ++ b0))
    (hopen : benv.openErr = none) (hrename : benv.renameErr = none) :
    ((letter ≠ 65 ∧ letter ≠ 66) →
      process_changeset_chunk_base db_dir tn benv st
        = .fail (.network "Invalid base file letter in changeset") st) ∧
    ((letter = 65 ∨ letter = 66) → b0.length + st.stream.length < sz →
      process_changeset_chunk_base db_dir tn benv st
        = .fail (.network "Unexpected end of changeset (6)")
            ⟨st.fs, [], b0 ++ st.stream,
             st.consumed ++ (letter :: F_pack_uint sz)⟩) ∧
    ((letter = 65 ∨ letter = 66) → sz ≤ b0.length + st.stream.length →
      ∃ st', process_changeset_chunk_base db_dir tn benv st = .ok st' ∧
        fsGet st'.fs (basePath db_dir tn letter)
          = some ((b0 ++ st.stream).take sz) ∧
        fsGet st'.fs (tmpPath db_dir tn) = none ∧
        ∀ q, q ≠ tmpPath db_dir tn → q ≠ basePath db_dir tn letter →
          fsGet st'.fs q = fsGet st.fs q) := by
  refine ⟨?_, ?_, ?_⟩
  · intro ⟨h65, h66⟩
    exact process_base_badLetter db_dir tn benv st letter _ hbl h65 h66
  · intro hletter hshort
    exact process_base_short db_dir tn benv st letter sz b0 hbl hletter hshort
  · intro hletter hsz
    have hcat : b0 ++ st.stream
        = (b0 ++ st.stream).take sz ++ (b0 ++ st.stream).drop sz :=
      (List.take_append_drop sz (b0 ++ st.stream)).symm
    have hlen : ((b0 ++ st.stream).take sz).length = sz := by
      simp only [List.length_take, List.length_append]
      omega
    obtain ⟨t, u, htu, heq⟩ := process_base_ok db_dir tn benv st letter sz
      ((b0 ++ st.stream).take sz) b0 ((b0 ++ st.stream).drop sz)
      hbl hcat hlen hletter hopen hrename
    refine ⟨_, heq, ?_, ?_, ?_⟩
    · rw [fsGet_fsRename_dst _ _ _ (tmpPath_ne_basePath db_dir tn letter)]
      simp [fsGetD, fsGet_fsSet_self]
    · rw [fsGet_fsRename_src]
      rw [if_neg (tmpPath_ne_basePath db_dir tn letter)]
    · intro q hq1 hq2
      rw [fsGet_fsRename_other _ _ _ _ hq1 hq2]
      exact fsGet_fsSet_ne _ _ _ _ hq1

/-- Witness for C7: concrete base chunk 'A' of size 3 writes exactly the
three streamed bytes onto the base path, leaves no temporary file and
touches no other path. -/
theorem flint_C7_base_chunk_witness :
    ∃ st', process_changeset_chunk_base (strBytes "db") (strBytes "record")
        happyBase
        ⟨[(strBytes "other", strBytes "keep")], strBytes "yz",
          65 :: (F_pack_uint 3 ++ strBytes "x"), []⟩ = .ok st' ∧
      fsGet st'.fs (basePath (strBytes "db") (strBytes "record") 65)
        = some ((strBytes "x" ++ strBytes "yz").take 3) ∧
      fsGet st'.fs (tmpPath (strBytes "db") (strBytes "record")) = none ∧
      ∀ q, q ≠ tmpPath (strBytes "db") (strBytes "record") →
        q ≠ basePath (strBytes "db") (strBytes "record") 65 →
        fsGet st'.fs q
          = fsGet [(strBytes "other", strBytes "keep")] q :=
  (flint_C7_base_chunk (strBytes "db") (strBytes "record") happyBase
      ⟨[(strBytes "other", strBytes "keep")], strBytes "yz",
        65 :: (F_pack_uint 3 ++ strBytes "x"), []⟩
      65 3 (strBytes "x") rfl rfl rfl).2.2 (by decide) (by decide)

/-- C8: applying the same base-file chunk twice in succession leaves the
target file `<table>.base<letter>` byte-identical to applying it once —
both applications leave exactly the chunk's content there. -/
theorem flint_C8_idempotent (db_dir tn : Bytes) (benv benv' : BaseEnv)
    (st : ReplState) (letter : Nat)
    (content b0 rest b0' rest' stream' consumed' : Bytes)
    (hbl : st.buf = letter :: (F_pack_uint content.length ++ b0))
    (hcat : b0 ++ st.stream = content ++ rest)
    (hletter : letter = 65 ∨ letter = 66)
    (hopen : benv.openErr = none) (hrename : benv.renameErr = none)
    (hopen' : benv'.openErr = none) (hrename' : benv'.renameErr = none)
    (hcat' : b0' ++ stream' = content ++ rest') :
    ∃ stA stB,
      process_changeset_chunk_base db_dir tn benv st = .ok stA ∧
      process_changeset_chunk_base db_dir tn benv'
        ⟨stA.fs, stream', letter :: (F_pack_uint content.length ++ b0'),
          consumed'⟩ = .ok stB ∧
      fsGet stB.fs (basePath db_dir tn letter)
        = fsGet stA.fs (basePath db_dir tn letter) ∧
      fsGet stA.fs (basePath db_dir tn letter) = some content := by
  obtain ⟨t, u, htu, heqA⟩ := process_base_ok db_dir tn benv st letter
    content.length content b0 rest hbl hcat rfl hletter hopen hrename
  obtain ⟨t2, u2, htu2, heqB⟩ := process_base_ok db_dir tn benv'
    ⟨fsRename (fsSet st.fs (tmpPath db_dir tn) content)
       (tmpPath db_dir tn) (basePath db_dir tn letter), stream',
      letter :: (F_pack_uint content.length ++ b0'), consumed'⟩
    letter content.length content b0' rest' rfl (by simpa using hcat')
    rfl hletter hopen' hrename'
  refine ⟨_, _, heqA, heqB, ?_, ?_⟩
  · simp only
    rw [fsGet_fsRename_dst _ _ _ (tmpPath_ne_basePath db_dir tn letter),
      fsGet_fsRename_dst _ _ _ (tmpPath_ne_basePath db_dir tn letter)]
    simp [fsGetD, fsGet_fsSet_self]
  · simp only
    rw [fsGet_fsRename_dst _ _ _ (tmpPath_ne_basePath db_dir tn letter)]
    simp [fsGetD, fsGet_fsSet_self]

/-- Witness for C8: applying the chunk `('A', "xyz")` twice leaves
`record.baseA` holding "xyz", the same as after the first application. -/
theorem flint_C8_idempotent_witness :
    ∃ stA stB,
      process_changeset_chunk_base (strBytes "db") (strBytes "record")
        happyBase ⟨[], strBytes "xyz",
          65 :: (F_pack_uint (strBytes "xyz").length ++ []), []⟩ = .ok stA ∧
      process_changeset_chunk_base (strBytes "db") (strBytes "record")
        happyBase ⟨stA.fs, strBytes "xyz",
          65 :: (F_pack_uint (strBytes "xyz").length ++ []), []⟩ = .ok stB ∧
      fsGet stB.fs (basePath (strBytes "db") (strBytes "record") 65)
        = fsGet stA.fs (basePath (strBytes "db") (strBytes "record") 65) ∧
      fsGet stA.fs (basePath (strBytes "db") (strBytes "record") 65)
        = some (strBytes "xyz") :=
  flint_C8_idempotent (strBytes "db") (strBytes "record") happyBase happyBase
    ⟨[], strBytes "xyz", 65 :: (F_pack_uint (strBytes "xyz").length ++ []), []⟩
    65 (strBytes "xyz") [] [] [] [] (strBytes "xyz") []
    rfl (by decide) (by decide) rfl rfl rfl rfl (by decide)

/-- C9: a changeset stream whose chunk loop reaches a tag other than 0, 1
or 2 makes the apply fail with a protocol (`NetworkError`) error at that
tag, and no chunk appearing after the unrecognised tag is applied: the
final filesystem is exactly the one produced by the chunks before the tag. -/
theorem flint_C9_unknown_tag (env : Env) (valid : Bool) (db_dir : Bytes)
    (fs : FS) (s e tag : Nat) (cs : List Chunk) (junk : Bytes)
    (hs : s < 2 ^ 64) (he : e < 2 ^ 64) (hlt : s < e)
    (hwf : wfChunksB cs = true)
    (hbe : ∀ i, env.benv i = happyBase)
    (hlock : env.lockOk = true)
    (hv : valid = true → s = env.currentRevision)
    (htag0 : tag ≠ 0) (htag1 : tag ≠ 1) (htag2 : tag ≠ 2) :
    ∃ msg st2,
      apply_changeset_from_conn env valid db_dir fs
        (CHANGES_MAGIC_STRING ++ F_pack_uint CHANGES_VERSION ++ F_pack_uint s
          ++ F_pack_uint e ++ 0 :: (serializeChunks cs ++ tag :: junk))
        = ⟨.error (.network msg), st2,
           if env.maxChangesets > 0 then some (changesName db_dir s) else none⟩ ∧
      fsEq st2.fs (applyChunks db_dir fs cs) := by
  obtain ⟨t, u, htu, heq⟩ := apply_unfold env valid db_dir fs s e 0
    (serializeChunks cs ++ tag :: junk) hs he hlt hlock
  have hcons := consumeTo_split
      ⟨fs, u, CHANGES_MAGIC_STRING ++ (F_pack_uint CHANGES_VERSION
        ++ (F_pack_uint s ++ (F_pack_uint e ++ 0 :: t))), []⟩
      (CHANGES_MAGIC_STRING ++ (F_pack_uint CHANGES_VERSION
        ++ (F_pack_uint s ++ (F_pack_uint e ++ [0])))) t
      (by simp [List.append_assoc])
  have hsim := chunkLoop_sim cs
      (totalLen ⟨fs, u, t,
        ([] : Bytes) ++ (CHANGES_MAGIC_STRING ++ (F_pack_uint CHANGES_VERSION
          ++ (F_pack_uint s ++ (F_pack_uint e ++ [0]))))⟩ + 1)
      0 env.benv db_dir
      ⟨fs, u, t,
        ([] : Bytes) ++ (CHANGES_MAGIC_STRING ++ (F_pack_uint CHANGES_VERSION
          ++ (F_pack_uint s ++ (F_pack_uint e ++ [0]))))⟩
      tag junk (Nat.lt_succ_self _) hwf hbe (by simpa using htu)
  obtain ⟨msg, st2, hloop, hfeq⟩ := hsim.2 htag0 htag1 htag2
  refine ⟨msg, st2, ?_, hfeq⟩
  rw [heq]
  simp only []
  rw [if_neg (by rintro ⟨hv', hne⟩; exact hne (hv hv'))]
  rw [if_neg (by simp)]
  simp only [applyRest, hcons, hloop]

/-- Witness for C9: a stream with one valid base chunk followed by the
unknown tag 3 fails with a protocol error and only the base chunk's effect
is on disk. -/
theorem flint_C9_unknown_tag_witness :
    ∃ msg st2,
      apply_changeset_from_conn ⟨0, 0, true, fun _ => happyBase⟩ false
        (strBytes "db") []
        (CHANGES_MAGIC_STRING ++ F_pack_uint CHANGES_VERSION ++ F_pack_uint 5
          ++ F_pack_uint 6 ++ 0 ::
            (serializeChunks [.base (strBytes "record") 65 (strBytes "xyz")]
              ++ 3 :: [9, 9]))
        = ⟨.error (.network msg), st2, none⟩ ∧
      fsEq st2.fs (applyChunks (strBytes "db") []
        [.base (strBytes "record") 65 (strBytes "xyz")]) :=
  flint_C9_unknown_tag ⟨0, 0, true, fun _ => happyBase⟩ false (strBytes "db")
    [] 5 6 3 [.base (strBytes "record") 65 (strBytes "xyz")] [9, 9]
    (by decide) (by decide) (by decide) (by decide) (fun _ => rfl) rfl
    (by simp) (by decide) (by decide) (by decide)

/-- C10: when the archival retention count is positive, the archival
changeset file (named `changes<startrev>` inside the database directory) is
created as soon as the header revisions are decoded — before the revision
guard and before the payload-kind tag is checked — and it is never removed
on failure; so a trusted apply with a mismatched start revision, or an
apply with an unsupported payload kind, fails while the archival file
exists. -/
theorem flint_C10_archival_on_failure (env : Env) (valid : Bool)
    (db_dir : Bytes) (fs : FS) (s e kind : Nat) (body : Bytes)
    (hs : s < 2 ^ 64) (he : e < 2 ^ 64) (hlt : s < e)
    (hlock : env.lockOk = true) (hm : 0 < env.maxChangesets) :
    ((apply_changeset_from_conn env valid db_dir fs
        (CHANGES_MAGIC_STRING ++ F_pack_uint CHANGES_VERSION ++ F_pack_uint s
          ++ F_pack_uint e ++ kind :: body)).changes
      = some (changesName db_dir s)) ∧
    (valid = true → s ≠ env.currentRevision →
      (apply_changeset_from_conn env valid db_dir fs
        (CHANGES_MAGIC_STRING ++ F_pack_uint CHANGES_VERSION ++ F_pack_uint s
          ++ F_pack_uint e ++ kind :: body)).outcome
        = .error (.network "Changeset supplied is for wrong revision number")) ∧
    ((valid = true → s = env.currentRevision) → kind ≠ 0 →
      (apply_changeset_from_conn env valid db_dir fs
        (CHANGES_MAGIC_STRING ++ F_pack_uint CHANGES_VERSION ++ F_pack_uint s
          ++ F_pack_uint e ++ kind :: body)).outcome
        = .error (.network ("Unsupported changeset type: " ++ Nat.repr kind))) := by
  obtain ⟨t, u, htu, heq⟩ := apply_unfold env valid db_dir fs s e kind body
    hs he hlt hlock
  refine ⟨?_, ?_, ?_⟩
  · simp only [heq]
    by_cases hg : valid = true ∧ s ≠ env.currentRevision
    · rw [if_pos hg]
      show (if env.maxChangesets > 0 then some (changesName db_dir s)
        else none) = _
      rw [if_pos hm]
    · rw [if_neg hg]
      by_cases hk : kind ≠ 0
      · rw [if_pos hk]
        show (if env.maxChangesets > 0 then some (changesName db_dir s)
          else none) = _
        rw [if_pos hm]
      · rw [if_neg hk]
        rw [applyRest_changes]
        rw [if_pos hm]
  · intro hv hne
    simp only [heq]
    rw [if_pos ⟨hv, hne⟩]
  · intro hv hkind
    simp only [heq]
    rw [if_neg (by rintro ⟨hv', hne⟩; exact hne (hv hv'))]
    rw [if_pos hkind]

/-- Witness for C10: retention count 2, trusted apply with mismatched start
revision: the apply fails with the revision-mismatch error while the
archival file `db/changes5` has been created. -/
theorem flint_C10_archival_on_failure_witness :
    ((apply_changeset_from_conn ⟨2, 4, true, fun _ => happyBase⟩ true
        (strBytes "db") []
        (CHANGES_MAGIC_STRING ++ F_pack_uint CHANGES_VERSION ++ F_pack_uint 5
          ++ F_pack_uint 6 ++ 1 :: [0, 6])).changes
      = some (changesName (strBytes "db") 5)) ∧
    ((true : Bool) = true → (5 : Nat) ≠ 4 →
      (apply_changeset_from_conn ⟨2, 4, true, fun _ => happyBase⟩ true
        (strBytes "db") []
        (CHANGES_MAGIC_STRING ++ F_pack_uint CHANGES_VERSION ++ F_pack_uint 5
          ++ F_pack_uint 6 ++ 1 :: [0, 6])).outcome
        = .error (.network "Changeset supplied is for wrong revision number")) ∧
    (((true : Bool) = true → (5 : Nat) = 4) → (1 : Nat) ≠ 0 →
      (apply_changeset_from_conn ⟨2, 4, true, fun _ => happyBase⟩ true
        (strBytes "db") []
        (CHANGES_MAGIC_STRING ++ F_pack_uint CHANGES_VERSION ++ F_pack_uint 5
          ++ F_pack_uint 6 ++ 1 :: [0, 6])).outcome
        = .error (.network ("Unsupported changeset type: " ++ Nat.repr 1))) :=
  flint_C10_archival_on_failure ⟨2, 4, true, fun _ => happyBase⟩ true
    (strBytes "db") [] 5 6 1 [0, 6]
    (by decide) (by decide) (by decide) rfl (by decide)
